import Mathlib

/-!
Verification of the intent-extraction and field-normalization core of a
multi-stage trip-planning assistant.  The functions below are shallow
embeddings of the Python functions in
`src/travel_agent_system/src/travel_agent_system/run_crew.py`.

Modelling conventions:
* Python strings are `List Char` (`Str`).  Case mapping, whitespace and
  word-character classification are modelled over the ASCII range (the
  fixed keyword sets, sentinel vocabulary and date formats handled by the
  code are all ASCII; the non-ASCII currency symbols are non-letters both
  in Python and in this model).
* Python values that can appear in an extracted JSON mapping are modelled
  by the mutual inductive `PyVal` / `PyValList` / `PyPairs`.  Python's
  `bool` is a subtype of `int`, so `isinstance(v, int)` checks match both
  the `vint` and `vbool` constructors.  Float literals are carried as
  their raw source token (`vfloat`), since IEEE-754 semantics are outside
  the scope of this embedding; no verified claim depends on float
  arithmetic.
* `datetime.date` values are `DateD` triples; comparison of `datetime`
  objects at midnight is field-lexicographic and subtraction is the
  difference of proleptic-Gregorian ordinals (`toOrd`, CPython's
  `_ymd2ord` algorithm), exactly as in CPython's implementation.
* All definitions are fuel-free structural recursions or use an explicit
  fuel bounded by the input length, so every function evaluates by kernel
  reduction on concrete inputs.
-/

namespace TravelCore

/-- Python strings are modelled as lists of characters. -/
abbrev Str : Type := List Char

/-- ASCII whitespace recognized by Python's `str.strip` / `re` `\s`
(space, tab, newline, carriage return, vertical tab, form feed). -/
def pyIsSpace (c : Char) : Bool :=
  c = ' ' || c = '\t' || c = '\n' || c = '\r' || c = '\x0b' || c = '\x0c'

/-- Model of Python `str.lstrip()` (ASCII whitespace). -/
def stripLeft (s : Str) : Str := s.dropWhile pyIsSpace

/-- Model of Python `str.strip()` (ASCII whitespace). -/
def pyStrip (s : Str) : Str :=
  ((s.dropWhile pyIsSpace).reverse.dropWhile pyIsSpace).reverse

/-- Model of Python `str.lower()` on the ASCII range. -/
def lowerStr (s : Str) : Str := s.map Char.toLower

/-- Model of Python `str.upper()` on the ASCII range. -/
def upperStr (s : Str) : Str := s.map Char.toUpper

/-- Value of an ASCII digit character. -/
def digitVal (c : Char) : Nat := c.toNat - 48

/-- Numeric value of a digit string, as computed by Python `int` on a
string of decimal digits. -/
def digitsToNat (s : Str) : Nat := s.foldl (fun a c => 10 * a + digitVal c) 0

/-- Decimal rendering of a natural number, fuel-based so that it reduces
definitionally; models Python `str` on a non-negative `int`. -/
def natStrAux : Nat → Nat → Str
  | 0, _ => []
  | _ + 1, 0 => []
  | fuel + 1, n + 1 =>
    natStrAux fuel ((n + 1) / 10) ++ [Nat.digitChar ((n + 1) % 10)]

/-- Model of Python `str` on a non-negative `int`. -/
def natStr (n : Nat) : Str := if n = 0 then ['0'] else natStrAux (n + 1) n

/-- Model of Python `str` on an `int` of either sign. -/
def intStr (i : Int) : Str :=
  if i < 0 then '-' :: natStr i.natAbs else natStr i.toNat

/-- Model of `re.search(r"\d+", text)`: the first maximal run of ASCII
digits in the string, if any. -/
def firstDigitRun : Str → Option Str
  | [] => Option.none
  | c :: rest =>
    if c.isDigit then some ((c :: rest).takeWhile Char.isDigit)
    else firstDigitRun rest

/-- Whether `p` is a prefix of `l` (model of Python `str.startswith`). -/
def startsWithS : Str → Str → Bool
  | _, [] => true
  | [], _ :: _ => false
  | c :: l, d :: p => c = d && startsWithS l p

/-- Model of the Python substring test `sub in l`. -/
def containsSub (l sub : Str) : Bool :=
  match l with
  | [] => sub.isEmpty
  | _ :: rest => startsWithS l sub || containsSub rest sub

/-- The `MISSING_SENTINELS` set from the source (run_crew.py line 35). -/
def MISSING_SENTINELS : List Str :=
  ["", "none", "null", "n/a", "na", "unknown", "not provided"].map String.data

/-- Embedding of `_is_missing_value` (run_crew.py lines 221-222). -/
def is_missing_value (v : Str) : Bool :=
  (pyStrip v).isEmpty || MISSING_SENTINELS.contains (lowerStr (pyStrip v))

/-- The string part of `_clean_text_value`: strip, then map sentinel
values to the empty string (run_crew.py lines 214-218, after `str()`). -/
def cleanStr (s : Str) : Str :=
  let t := pyStrip s
  if MISSING_SENTINELS.contains (lowerStr t) then [] else t

/-- The `_AUDIT_FAIL_KEYWORDS` tuple from the source (lines 38-48). -/
def AUDIT_FAIL_KEYWORDS : List Str :=
  ["fail", "infeasible", "exceeds budget", "over budget", "cannot be met",
   "budget alert", "budget notification", "critical budget",
   "not feasible"].map String.data

/-- Embedding of `_audit_suggests_fail` (run_crew.py lines 411-414). -/
def audit_suggests_fail (t : Str) : Bool :=
  AUDIT_FAIL_KEYWORDS.any (fun k => containsSub (lowerStr t) k)

/-- Embedding of `_validate_budget_format` (lines 277-279): true when the
string contains at least one ASCII digit. -/
def validate_budget_format (v : Str) : Bool := v.any Char.isDigit

mutual

/-- Python values that can appear in an extracted mapping: `None`, `bool`
(an `int` subtype in Python), `int`, `float` (carried as its literal
token), `str`, `list`, `dict`. -/
inductive PyVal : Type where
  | vnone : PyVal
  | vbool (b : Bool) : PyVal
  | vint (i : Int) : PyVal
  | vfloat (raw : List Char) : PyVal
  | vstr (s : List Char) : PyVal
  | vlist (xs : PyValList) : PyVal
  | vdict (entries : PyPairs) : PyVal

/-- A Python list of `PyVal`s (mutual with `PyVal` so that all recursions
stay structural). -/
inductive PyValList : Type where
  | nil : PyValList
  | cons (head : PyVal) (tail : PyValList) : PyValList

/-- A Python dict with string keys, in insertion order. -/
inductive PyPairs : Type where
  | nil : PyPairs
  | cons (key : List Char) (val : PyVal) (tail : PyPairs) : PyPairs

end

open PyVal

/-- Python `repr` of a string: quote with `'` unless the string contains
`'` but no `"`; escape the backslash, the quote character and the common
control characters.  (Python additionally hex-escapes other
non-printables; no claim depends on those.) -/
def strRepr (s : Str) : Str :=
  let q : Char := if s.contains '\'' && !s.contains '"' then '"' else '\''
  let body := s.foldr
    (fun c acc =>
      if c = '\\' then '\\' :: '\\' :: acc
      else if c = q then '\\' :: q :: acc
      else if c = '\n' then '\\' :: 'n' :: acc
      else if c = '\r' then '\\' :: 'r' :: acc
      else if c = '\t' then '\\' :: 't' :: acc
      else c :: acc) []
  q :: body ++ [q]

mutual

/-- Python `repr` of a value (for non-strings this equals `str`). -/
def pyRepr (v : PyVal) : Str :=
  match v with
  | vnone => "None".data
  | vbool true => "True".data
  | vbool false => "False".data
  | vint i => intStr i
  | vfloat raw => raw
  | vstr s => strRepr s
  | vlist xs => '[' :: reprItems xs ++ [']']
  | vdict es => '{' :: reprPairs es ++ ['}']
  termination_by structural v

/-- Comma-joined `repr`s of list elements, as in Python `str(list)`. -/
def reprItems (l : PyValList) : Str :=
  match l with
  | .nil => []
  | .cons v rest => pyRepr v ++ reprItemsTail rest
  termination_by structural l

/-- The remaining elements of a list `repr`, each preceded by ", ". -/
def reprItemsTail (l : PyValList) : Str :=
  match l with
  | .nil => []
  | .cons v rest => ", ".data ++ pyRepr v ++ reprItemsTail rest
  termination_by structural l

/-- Comma-joined `key: value` `repr`s, as in Python `str(dict)`. -/
def reprPairs (l : PyPairs) : Str :=
  match l with
  | .nil => []
  | .cons k v rest => strRepr k ++ ": ".data ++ pyRepr v ++ reprPairsTail rest
  termination_by structural l

/-- The remaining entries of a dict `repr`, each preceded by ", ". -/
def reprPairsTail (l : PyPairs) : Str :=
  match l with
  | .nil => []
  | .cons k v rest =>
    ", ".data ++ strRepr k ++ ": ".data ++ pyRepr v ++ reprPairsTail rest
  termination_by structural l

end

/-- Python `str()` of a value: identity on strings, `repr` otherwise. -/
def pyStr : PyVal → Str
  | vstr s => s
  | v => pyRepr v

/-- Python truthiness of a value.  A float token is truthy when it has a
nonzero digit (exact for every literal the pipeline handles). -/
def pyTruthy : PyVal → Bool
  | vnone => false
  | vbool b => b
  | vint i => i != 0
  | vfloat raw => raw.any (fun c => c.isDigit && c ≠ '0')
  | vstr s => !s.isEmpty
  | vlist .nil => false
  | vlist (.cons _ _) => true
  | vdict .nil => false
  | vdict (.cons _ _ _) => true

/-- First-match lookup in a Python dict (keys are unique in Python, so
first match is the match); models `dict.get(key)` returning `None` when
absent. -/
def pyGet : PyPairs → Str → Option PyVal
  | .nil, _ => Option.none
  | .cons k v rest, key => if k = key then some v else pyGet rest key

/-- Models `extracted.get(key, default)`. -/
def pyGetD (d : PyPairs) (key : Str) (dflt : PyVal) : PyVal :=
  (pyGet d key).getD dflt

/-- Models `extracted.get(key)` (default `None`). -/
def pyGetN (d : PyPairs) (key : Str) : PyVal := pyGetD d key vnone

/-- Embedding of `_clean_text_value` (run_crew.py lines 214-218). -/
def clean_text_value : PyVal → Str
  | vnone => []
  | v => cleanStr (pyStr v)

/-- Embedding of `_to_int_days` (run_crew.py lines 164-174).  The
`isinstance(value, int)` branch also matches Python booleans (`bool` is
an `int` subtype), and `return value if value > 0 else None` returns the
original value object, so `True` is passed through unchanged. -/
def to_int_days : PyVal → Option PyVal
  | vnone => Option.none
  | vint i => if 0 < i then some (vint i) else Option.none
  | vbool b => if b then some (vbool b) else Option.none
  | v =>
    let text := pyStrip (pyStr v)
    match firstDigitRun text with
    | Option.none => Option.none
    | some run =>
      let parsed := digitsToNat run
      if 0 < parsed then some (vint parsed) else Option.none

/-- Embedding of `_to_int_people` (run_crew.py lines 177-188); the body
is textually identical to `_to_int_days`. -/
def to_int_people : PyVal → Option PyVal
  | vnone => Option.none
  | vint i => if 0 < i then some (vint i) else Option.none
  | vbool b => if b then some (vbool b) else Option.none
  | v =>
    let text := pyStrip (pyStr v)
    match firstDigitRun text with
    | Option.none => Option.none
    | some run =>
      let parsed := digitsToNat run
      if 0 < parsed then some (vint parsed) else Option.none

/-- Embedding of `_normalize_interests` (run_crew.py lines 225-232), on
the list branch: clean each element, drop empties, join with a comma. -/
def cleanedItems : PyValList → List Str
  | .nil => []
  | .cons v rest =>
    if (clean_text_value v).isEmpty then cleanedItems rest
    else clean_text_value v :: cleanedItems rest
termination_by structural items => items

/-- Comma-space join, as in Python `", ".join(items)`. -/
def joinComma : List Str → Str
  | [] => []
  | [s] => s
  | s :: r :: rest => s ++ ", ".data ++ joinComma (r :: rest)

/-- Embedding of `_normalize_interests` (run_crew.py lines 225-232). -/
def normalize_interests : PyVal → Str
  | vnone => []
  | vlist items => joinComma (cleanedItems items)
  | v => clean_text_value v

/-- Embedding of `_normalize_budget` (run_crew.py lines 235-246). -/
def normalize_budget : PyVal → Str
  | vnone => []
  | vdict kvs =>
    let amount := pyGetD kvs "amount".data vnone
    let currency := pyGetD kvs "currency".data vnone
    if amount matches vnone then clean_text_value (vdict kvs)
    else if pyTruthy currency then
      clean_text_value (vstr (pyStrip (pyStr amount ++ " ".data ++ pyStr currency)))
    else clean_text_value amount
  | v => clean_text_value v

/-- A proleptic-Gregorian calendar date, modelling a CPython
`datetime.datetime` at midnight. -/
structure DateD where
  y : Nat
  m : Nat
  d : Nat
deriving DecidableEq, Repr

/-- Gregorian leap-year rule, as in CPython `datetime._is_leap`. -/
def isLeap (y : Nat) : Bool := (y % 4 = 0 && y % 100 ≠ 0) || y % 400 = 0

/-- Days in a month as a function of the leap flag. -/
def daysInMonthL (leap : Bool) (m : Nat) : Nat :=
  if m = 2 then (if leap then 29 else 28)
  else if m = 4 || m = 6 || m = 9 || m = 11 then 30
  else 31

/-- Days in the given month, as in CPython `datetime._days_in_month`. -/
def daysInMonth (y m : Nat) : Nat := daysInMonthL (isLeap y) m

/-- Cumulative days before month `m`, parameterized by the leap flag, as
in CPython's `_DAYS_BEFORE_MONTH` table plus the leap adjustment. -/
def daysBeforeMonthL (leap : Bool) (m : Nat) : Nat :=
  (match m with
   | 1 => 0 | 2 => 31 | 3 => 59 | 4 => 90 | 5 => 120 | 6 => 151
   | 7 => 181 | 8 => 212 | 9 => 243 | 10 => 273 | 11 => 304 | _ => 334)
  + (if 2 < m && leap then 1 else 0)

/-- Days before month `m` of year `y` (CPython `_days_before_month`). -/
def daysBeforeMonth (y m : Nat) : Nat := daysBeforeMonthL (isLeap y) m

/-- Days before January 1st of year `y` (CPython `_days_before_year`). -/
def daysBeforeYear (y : Nat) : Nat :=
  365 * (y - 1) + (y - 1) / 4 - (y - 1) / 100 + (y - 1) / 400

/-- Proleptic-Gregorian ordinal of a date (CPython `_ymd2ord`):
January 1 of year 1 is day 1. -/
def toOrd (a : DateD) : Nat := daysBeforeYear a.y + daysBeforeMonth a.y a.m + a.d

/-- Validity of a date triple, as enforced by the `datetime` constructor. -/
def ValidDate (a : DateD) : Prop :=
  1 ≤ a.y ∧ 1 ≤ a.m ∧ a.m ≤ 12 ∧ 1 ≤ a.d ∧ a.d ≤ daysInMonth a.y a.m

instance (a : DateD) : Decidable (ValidDate a) := by
  unfold ValidDate; infer_instance

/-- Field-lexicographic comparison of dates, which is how CPython
compares two `datetime` objects (equal time-of-day components). -/
def dtLtB (a b : DateD) : Bool :=
  decide (a.y < b.y ∨ (a.y = b.y ∧ (a.m < b.m ∨ (a.m = b.m ∧ a.d < b.d))))

/-- Whether a character's code point lies in an inclusive range (used to
state the digit classes of the CPython `strptime` regex: 48-57 is
`0`-`9`, 49-57 is `[1-9]`, 48-50 is `[0-2]`, 48-49 is `[01]`). -/
def inRange (c : Char) (lo hi : Nat) : Bool := lo ≤ c.toNat && c.toNat ≤ hi

/-- The month pattern of CPython `strptime`'s `%m`:
`1[0-2]|0[1-9]|[1-9]`, first alternative wins.  Returns the month value
and the unconsumed suffix. -/
def parseMonth : Str → Option (Nat × Str)
  | c1 :: c2 :: rest =>
    if c1 = '1' && inRange c2 48 50 then some (10 + digitVal c2, rest)
    else if c1 = '0' && inRange c2 49 57 then some (digitVal c2, rest)
    else if inRange c1 49 57 then some (digitVal c1, c2 :: rest)
    else Option.none
  | [c1] =>
    if inRange c1 49 57 then some (digitVal c1, []) else Option.none
  | [] => Option.none

/-- The day pattern of CPython `strptime`'s `%d`:
`3[01]|[12]\d|0[1-9]|[1-9]`. -/
def parseDay : Str → Option (Nat × Str)
  | c1 :: c2 :: rest =>
    if c1 = '3' && inRange c2 48 49 then some (30 + digitVal c2, rest)
    else if (c1 = '1' || c1 = '2') && inRange c2 48 57 then
      some (10 * digitVal c1 + digitVal c2, rest)
    else if c1 = '0' && inRange c2 49 57 then some (digitVal c2, rest)
    else if inRange c1 49 57 then some (digitVal c1, c2 :: rest)
    else Option.none
  | [c1] =>
    if inRange c1 49 57 then some (digitVal c1, []) else Option.none
  | [] => Option.none

/-- Value of a four-digit year field. -/
def yearVal (a b c d : Char) : Nat :=
  1000 * digitVal a + 100 * digitVal b + 10 * digitVal c + digitVal d

/-- Embedding of `datetime.strptime(s, "%Y-%m-%d")` followed by the
`datetime` constructor's range checks: `%Y` is exactly four digits, `%m`
and `%d` are the CPython patterns above, the whole string must be
consumed, and the day must exist in the month (year 0 is rejected by the
constructor).  Returns `none` exactly when CPython raises `ValueError`. -/
def strptimeYmd (s : Str) : Option DateD :=
  match s with
  | a :: b :: c :: d :: '-' :: rest =>
    if a.isDigit && b.isDigit && c.isDigit && d.isDigit then
      match parseMonth rest with
      | some (m, '-' :: rest2) =>
        match parseDay rest2 with
        | some (dd, []) =>
          if 1 ≤ yearVal a b c d ∧ dd ≤ daysInMonth (yearVal a b c d) m then
            some ⟨yearVal a b c d, m, dd⟩
          else Option.none
        | _ => Option.none
      | _ => Option.none
    else Option.none
  | _ => Option.none

/-- Embedding of `_parse_iso_date` (run_crew.py lines 191-201): stringify
and strip, reject empty and sentinel values, then parse the first ten
characters as `YYYY-MM-DD`. -/
def parse_iso_date : PyVal → Option DateD
  | vnone => Option.none
  | v =>
    if (pyStrip (pyStr v)).isEmpty ||
        MISSING_SENTINELS.contains (lowerStr (pyStrip (pyStr v))) then
      Option.none
    else strptimeYmd ((pyStrip (pyStr v)).take 10)

/-- Embedding of `_validate_iso_date` (run_crew.py lines 268-274): the
whole trimmed string must parse as `YYYY-MM-DD`. -/
def validate_iso_date (v : Str) : Bool := (strptimeYmd (pyStrip v)).isSome

/-- Embedding of `_days_between` (run_crew.py lines 204-211).  CPython's
`end_dt - start_dt` subtracts proleptic-Gregorian ordinals and
`end_dt < start_dt` compares fields lexicographically. -/
def days_between (s e : Str) : Option Int :=
  match parse_iso_date (vstr s), parse_iso_date (vstr e) with
  | some a, some b =>
    if dtLtB b a then Option.none
    else if 0 < (toOrd b : Int) - (toOrd a : Int) + 1 then
      some ((toOrd b : Int) - (toOrd a : Int) + 1)
    else Option.none
  | _, _ => Option.none

/-- Digit run with optional single underscores between digits, as
accepted by Python `int(str)` after the sign. -/
def pyDigitsU : Nat → Str → Option Nat
  | acc, [] => some acc
  | acc, c :: rest =>
    if c = '_' then
      match rest with
      | c2 :: rest2 =>
        if c2.isDigit then pyDigitsU (10 * acc + digitVal c2) rest2
        else Option.none
      | [] => Option.none
    else if c.isDigit then pyDigitsU (10 * acc + digitVal c) rest
    else Option.none

/-- A nonempty underscore-free digit run opening a Python `int` literal
body. -/
def pyDigitsStart : Str → Option Nat
  | [] => Option.none
  | c :: rest => if c.isDigit then pyDigitsU (digitVal c) rest else Option.none

/-- The body of Python `int(s)` after stripping: optional sign, then a
digit run. -/
def pyIntBody : Str → Option Int
  | [] => Option.none
  | c :: rest =>
    if c = '+' then (pyDigitsStart rest).map (fun n => (n : Int))
    else if c = '-' then (pyDigitsStart rest).map (fun n => -(n : Int))
    else (pyDigitsStart (c :: rest)).map (fun n => (n : Int))

/-- Model of Python `int(s)` on a string: strip whitespace, optional
sign, then decimal digits (single underscores allowed between digits);
`none` models `ValueError`. -/
def pyIntParse (s : Str) : Option Int := pyIntBody (pyStrip s)

/-- The `_CURRENCY_SYMBOL_MAP` insertion order (run_crew.py lines 51-63)
as symbol/code pairs. -/
def CURRENCY_SYMBOL_PAIRS : List (Str × Str) :=
  [("$", "USD"), ("€", "EUR"), ("£", "GBP"), ("₹", "INR"), ("¥", "JPY"),
   ("₩", "KRW"), ("₺", "TRY"), ("₫", "VND"), ("฿", "THB"),
   ("د.إ", "AED"), ("S$", "SGD")].map (fun p => (p.1.data, p.2.data))

/-- Stable insertion step for sorting by descending symbol length. -/
def insertByLenDesc (p : Str × Str) : List (Str × Str) → List (Str × Str)
  | [] => [p]
  | q :: rest =>
    if p.1.length < q.1.length then q :: insertByLenDesc p rest
    else p :: q :: rest

/-- Stable sort by descending symbol length, modelling
`sorted(items, key=lambda x: -len(x[0]))` (Python's sort is stable). -/
def sortByLenDesc : List (Str × Str) → List (Str × Str)
  | [] => []
  | p :: rest => insertByLenDesc p (sortByLenDesc rest)

/-- The loop body of `_extract_currency_from_budget`: first pair whose
symbol occurs in the budget string. -/
def findSym : List (Str × Str) → Str → Option Str
  | [], _ => Option.none
  | (sym, code) :: rest, s =>
    if containsSub s sym then some code else findSym rest s

/-- Word characters for Python `re`'s `\b`, modelled on the ASCII range
(letters, digits, underscore; the currency symbols involved are
non-word characters in Python as well). -/
def isWordChar (c : Char) : Bool := c.isAlpha || c.isDigit || c = '_'

/-- Leftmost match of `re.search(r"\b([A-Z]{3})\b", s)`: scan for the
first position with a word boundary, three uppercase ASCII letters, and
a word boundary after them. -/
def findCode3Aux : Bool → Str → Option Str
  | prevWord, c1 :: c2 :: c3 :: rest =>
    if !prevWord && c1.isUpper && c2.isUpper && c3.isUpper &&
        (match rest with | [] => true | r :: _ => !isWordChar r) then
      some [c1, c2, c3]
    else findCode3Aux (isWordChar c1) (c2 :: c3 :: rest)
  | _, _ => Option.none

/-- Search for a free-standing three-letter uppercase code. -/
def findCode3 (s : Str) : Option Str := findCode3Aux false s

/-- Embedding of `_extract_currency_from_budget` (run_crew.py lines
249-265). -/
def extract_currency_from_budget (s : Str) : Str :=
  if s.isEmpty then "USD".data
  else
    match findSym (sortByLenDesc CURRENCY_SYMBOL_PAIRS) s with
    | some code => code
    | Option.none =>
      match findCode3 (upperStr s) with
      | some code => code
      | Option.none => "USD".data

/-- The nights-derivation step of `main` (run_crew.py lines 448-457):
`nights = max(int(days) - 1, 0)`, stored as a decimal string when
positive and as the empty string otherwise; unparseable or empty `days`
yields the empty string. -/
def nights_of_days (days : Str) : Str :=
  if days.isEmpty then []
  else
    match pyIntParse days with
    | some n => let nv := max (n - 1) 0; if 0 < nv then intStr nv else []
    | Option.none => []

/-- JSON whitespace accepted by `json.loads` between tokens. -/
def isJsonWs (c : Char) : Bool := c = ' ' || c = '\t' || c = '\n' || c = '\r'

/-- Drop leading JSON whitespace. -/
def jsonWsDrop (s : Str) : Str := s.dropWhile isJsonWs

/-- Hexadecimal digit value. -/
def hexVal (c : Char) : Option Nat :=
  if c.isDigit then some (digitVal c)
  else if 'a' ≤ c && c ≤ 'f' then some (c.toNat - 87)
  else if 'A' ≤ c && c ≤ 'F' then some (c.toNat - 55)
  else Option.none

/-- Parse a JSON string literal body (after the opening quote) with the
standard escapes; raw control characters are rejected as in strict-mode
`json.loads`. -/
def parseStrLit : Nat → Str → Option (Str × Str)
  | 0, _ => Option.none
  | fuel + 1, s =>
    match s with
    | [] => Option.none
    | '"' :: rest => some ([], rest)
    | '\\' :: e :: rest =>
      let cont : Char → Str → Option (Str × Str) := fun c r =>
        (parseStrLit fuel r).map (fun p => (c :: p.1, p.2))
      if e = '"' then cont '"' rest
      else if e = '\\' then cont '\\' rest
      else if e = '/' then cont '/' rest
      else if e = 'b' then cont '\x08' rest
      else if e = 'f' then cont '\x0c' rest
      else if e = 'n' then cont '\n' rest
      else if e = 'r' then cont '\r' rest
      else if e = 't' then cont '\t' rest
      else if e = 'u' then
        match rest with
        | h1 :: h2 :: h3 :: h4 :: rest2 =>
          match hexVal h1, hexVal h2, hexVal h3, hexVal h4 with
          | some a, some b, some c, some d =>
            cont (Char.ofNat (((a * 16 + b) * 16 + c) * 16 + d)) rest2
          | _, _, _, _ => Option.none
        | _ => Option.none
      else Option.none
    | c :: rest =>
      if c.toNat < 32 then Option.none
      else (parseStrLit fuel rest).map (fun p => (c :: p.1, p.2))

/-- Parse a JSON number token, following Python json's
`(-?(?:0|[1-9]\d*))(\.\d+)?([eE][-+]?\d+)?`: the fraction and exponent
groups are optional and are simply skipped when they fail to match.
Integer literals (no fraction, no exponent) become Python `int`s; other
numeric literals become floats carried as their raw token. -/
def parseNum (s : Str) : Option (PyVal × Str) :=
  let core : Bool → Str → Option (PyVal × Str) := fun neg s1 =>
    match s1 with
    | [] => Option.none
    | c :: rest =>
      if !c.isDigit then Option.none
      else
        let intPart : Str :=
          if c = '0' then ['0'] else c :: rest.takeWhile Char.isDigit
        let after : Str := if c = '0' then rest else rest.dropWhile Char.isDigit
        let fr : Str × Str :=
          match after with
          | '.' :: r =>
            let ds := r.takeWhile Char.isDigit
            if ds.isEmpty then ([], after)
            else ('.' :: ds, r.dropWhile Char.isDigit)
          | _ => ([], after)
        let ex : Str × Str :=
          match fr.2 with
          | e :: r =>
            if e = 'e' || e = 'E' then
              let sr : Str × Str :=
                match r with
                | '+' :: r2 => (['+'], r2)
                | '-' :: r2 => (['-'], r2)
                | _ => ([], r)
              let ds := sr.2.takeWhile Char.isDigit
              if ds.isEmpty then ([], fr.2)
              else (e :: sr.1 ++ ds, sr.2.dropWhile Char.isDigit)
            else ([], fr.2)
          | [] => ([], [])
        if fr.1.isEmpty && ex.1.isEmpty then
          some (vint (if neg then -(digitsToNat intPart : Int)
                      else (digitsToNat intPart : Int)), ex.2)
        else
          some (vfloat ((if neg then ['-'] else []) ++ intPart ++ fr.1 ++ ex.1),
                ex.2)
  match s with
  | '-' :: rest => core true rest
  | _ => core false s

/-- Python-dict insertion: a repeated key keeps its first position but
takes the latest value. -/
def dictInsert : PyPairs → Str → PyVal → PyPairs
  | .nil, k, v => .cons k v .nil
  | .cons k' v' rest, k, v =>
    if k' = k then .cons k v rest else .cons k' v' (dictInsert rest k v)

/-- Build a Python dict from parsed key/value pairs in textual order. -/
def buildDict (ps : List (Str × PyVal)) : PyPairs :=
  ps.foldl (fun d p => dictInsert d p.1 p.2) .nil

/-- Convert a Lean list of values to a Python list. -/
def toPyList : List PyVal → PyValList
  | [] => .nil
  | v :: rest => .cons v (toPyList rest)

/-- Parse the members of a JSON object after the opening brace (given a
parser for values), returning the pairs in textual order and the suffix
after the closing brace. -/
def parseMembers (pv : Str → Option (PyVal × Str)) :
    Nat → Str → Option (List (Str × PyVal) × Str)
  | 0, _ => Option.none
  | fuel + 1, s =>
    match jsonWsDrop s with
    | '"' :: rest =>
      match parseStrLit (rest.length + 1) rest with
      | some (key, r1) =>
        match jsonWsDrop r1 with
        | ':' :: r2 =>
          match pv r2 with
          | some (v, r3) =>
            match jsonWsDrop r3 with
            | '}' :: r4 => some ([(key, v)], r4)
            | ',' :: r4 =>
              (parseMembers pv fuel r4).map (fun p => ((key, v) :: p.1, p.2))
            | _ => Option.none
          | Option.none => Option.none
        | _ => Option.none
      | Option.none => Option.none
    | _ => Option.none

/-- Parse the items of a JSON array after the opening bracket. -/
def parseItems (pv : Str → Option (PyVal × Str)) :
    Nat → Str → Option (List PyVal × Str)
  | 0, _ => Option.none
  | fuel + 1, s =>
    match pv s with
    | some (v, r1) =>
      match jsonWsDrop r1 with
      | ']' :: r2 => some ([v], r2)
      | ',' :: r2 => (parseItems pv fuel r2).map (fun p => (v :: p.1, p.2))
      | _ => Option.none
    | Option.none => Option.none

/-- Parse a JSON value and return the unconsumed suffix. -/
def parseVal : Nat → Str → Option (PyVal × Str)
  | 0, _ => Option.none
  | fuel + 1, s0 =>
    match jsonWsDrop s0 with
    | [] => Option.none
    | '{' :: rest =>
      (match jsonWsDrop rest with
       | '}' :: r2 => some (vdict .nil, r2)
       | r2 => (parseMembers (parseVal fuel) (fuel + 1) r2).map
           (fun p => (vdict (buildDict p.1), p.2)))
    | '[' :: rest =>
      (match jsonWsDrop rest with
       | ']' :: r2 => some (vlist .nil, r2)
       | r2 => (parseItems (parseVal fuel) (fuel + 1) r2).map
           (fun p => (vlist (toPyList p.1), p.2)))
    | '"' :: rest => (parseStrLit (rest.length + 1) rest).map
        (fun p => (vstr p.1, p.2))
    | 't' :: 'r' :: 'u' :: 'e' :: rest => some (vbool true, rest)
    | 'f' :: 'a' :: 'l' :: 's' :: 'e' :: rest => some (vbool false, rest)
    | 'n' :: 'u' :: 'l' :: 'l' :: rest => some (vnone, rest)
    | 'N' :: 'a' :: 'N' :: rest => some (vfloat "nan".data, rest)
    | 'I' :: 'n' :: 'f' :: 'i' :: 'n' :: 'i' :: 't' :: 'y' :: rest =>
      some (vfloat "inf".data, rest)
    | '-' :: 'I' :: 'n' :: 'f' :: 'i' :: 'n' :: 'i' :: 't' :: 'y' :: rest =>
      some (vfloat "-inf".data, rest)
    | s => parseNum s

/-- Embedding of `json.loads` with its default settings, which also
accept the non-standard constants `NaN`, `Infinity` and `-Infinity` as
float values: parse one value and require that only whitespace remains;
`none` models `json.JSONDecodeError`. -/
def jsonLoads (s : Str) : Option PyVal :=
  match parseVal (s.length + 1) s with
  | some (v, rest) => if (jsonWsDrop rest).isEmpty then some v else Option.none
  | Option.none => Option.none

/-- The match scanner of `re.findall(r"\{.*?\}", cleaned, re.DOTALL)`:
outside a match, the first `{` opens a candidate; inside, the first `}`
closes it (non-greedy), and scanning resumes after it.  The accumulator
holds the candidate body in reverse. -/
def fcAux : Option Str → Str → List Str
  | Option.none, [] => []
  | Option.none, c :: rest =>
    if c = '{' then fcAux (some []) rest else fcAux Option.none rest
  | some _, [] => []
  | some acc, c :: rest =>
    if c = '}' then ('{' :: acc.reverse ++ ['}']) :: fcAux Option.none rest
    else fcAux (some (c :: acc)) rest

/-- All brace-delimited candidate substrings, in order of occurrence. -/
def findCandidates (s : Str) : List Str := fcAux Option.none s

/-- For the lazy `\{.*?\}` inside the fenced-block pattern: scan for the
first `}` whose suffix is whitespace followed by a closing fence. -/
def lazyBody : Str → Str → Option Str
  | [], _ => Option.none
  | c :: rest, acc =>
    if c = '}' && startsWithS (rest.dropWhile pyIsSpace) "```".data then
      some ('{' :: acc.reverse ++ ['}'])
    else lazyBody rest (c :: acc)

/-- Try to match ```` ```(?:json)?\s*(\{.*?\})\s*``` ```` at this exact
position, returning the captured group. -/
def tryFenceAt (s : Str) : Option Str :=
  if startsWithS s "```".data then
    let r := s.drop 3
    let attempt : Str → Option Str := fun r2 =>
      match r2.dropWhile pyIsSpace with
      | '{' :: after => lazyBody after []
      | _ => Option.none
    if startsWithS r "json".data then
      match attempt (r.drop 4) with
      | some g => some g
      | Option.none => attempt r
    else attempt r
  else Option.none

/-- Leftmost match of the fenced-block pattern, as found by
`re.search(r"```(?:json)?\s*(\{.*?\})\s*```", cleaned, re.DOTALL)`. -/
def fencedSearch : Str → Option Str
  | [] => Option.none
  | c :: rest =>
    match tryFenceAt (c :: rest) with
    | some g => some g
    | Option.none => fencedSearch rest

/-- The `cleaned` text `_extract_json_block` parses: the fenced capture
group when the fence pattern matches, else the stripped input itself. -/
def fencedOrWhole (cleaned : Str) : Str :=
  match fencedSearch cleaned with
  | some g => g
  | Option.none => cleaned

/-- Embedding of `_extract_json_block` (run_crew.py lines 142-161):
strip, prefer a fenced block, try a direct parse (a non-dict successful
parse returns the empty mapping), then scan the brace-delimited
candidates from the last one backward and return the first that parses
as an object; the empty mapping if none does.  The function is total:
parse failures select the next branch rather than raising. -/
def extract_json_block (text : Str) : PyPairs :=
  match jsonLoads (fencedOrWhole (pyStrip text)) with
  | some (vdict d) => d
  | some _ => .nil
  | Option.none =>
    scanRevCands (findCandidates (fencedOrWhole (pyStrip text))).reverse
where
  /-- The candidate loop: first candidate (in the given order) that
  parses as a JSON object wins. -/
  scanRevCands : List Str → PyPairs
    | [] => .nil
    | c :: rest =>
      match jsonLoads c with
      | some (vdict d) => d
      | _ => scanRevCands rest

/-- Whether a value is Python `None`. -/
def isVNone : PyVal → Bool
  | vnone => true
  | _ => false

/-- Value of the Python expression `a or b`. -/
def pyOr (a b : PyVal) : PyVal := if pyTruthy a then a else b

/-- The canonical output mapping of `_normalize_extracted_fields`: a dict
with exactly these ten string-valued keys, modelled as a structure. -/
structure NF where
  origin : Str
  destination : Str
  start_date : Str
  end_date : Str
  start_or_dates : Str
  days : Str
  num_people : Str
  budget : Str
  style : Str
  interests : Str
deriving DecidableEq, Repr

/-- Embedding of `_normalize_extracted_fields` (run_crew.py lines
282-332). -/
def normalize_extracted_fields (extracted : PyPairs) : NF :=
  let budget_val0 := pyGetN extracted "budget".data
  let budget_val :=
    if !pyTruthy budget_val0 &&
        (!isVNone (pyGetN extracted "budget_amount".data) ||
          pyTruthy (pyGetN extracted "budget_currency".data)) then
      vdict (.cons "amount".data (pyGetN extracted "budget_amount".data)
        (.cons "currency".data (pyGetN extracted "budget_currency".data) .nil))
    else budget_val0
  let dates_val :=
    pyOr (pyOr (pyGetN extracted "start_or_dates".data)
        (pyGetN extracted "travel_dates".data))
      (pyGetN extracted "dates".data)
  let start_date_raw := pyGetN extracted "start_date".data
  let end_date_raw := pyGetN extracted "end_date".data
  let start_date := if isVNone start_date_raw then [] else clean_text_value start_date_raw
  let end_date := if isVNone end_date_raw then [] else clean_text_value end_date_raw
  let sod0 := clean_text_value dates_val
  let days0 : Str :=
    match to_int_days (pyGetN extracted "days".data) with
    | some pv => pyStr pv
    | Option.none =>
      if !start_date.isEmpty && !end_date.isEmpty then
        match days_between start_date end_date with
        | some d => intStr d
        | Option.none => []
      else []
  let people0 : Str :=
    match to_int_people (pyOr (pyGetN extracted "num_people".data)
        (pyGetN extracted "number_of_people".data)) with
    | some pv => pyStr pv
    | Option.none => []
  let sod :=
    if !start_date.isEmpty && !end_date.isEmpty && sod0.isEmpty then
      start_date ++ " to ".data ++ end_date
    else sod0
  { origin := clean_text_value (pyGetD extracted "origin".data (vstr []))
    destination := clean_text_value (pyGetD extracted "destination".data (vstr []))
    start_date := start_date
    end_date := end_date
    start_or_dates := sod
    days := days0
    num_people := people0
    budget := normalize_budget budget_val
    style := clean_text_value (pyGetD extracted "style".data (vstr []))
    interests := normalize_interests (pyGetN extracted "interests".data) }

/-- The normalize output viewed again as a Python dict (its exact ten
keys, in the source's literal order), for re-running the normalizer. -/
def nfToDict (f : NF) : PyPairs :=
  .cons "origin".data (vstr f.origin)
    (.cons "destination".data (vstr f.destination)
      (.cons "start_date".data (vstr f.start_date)
        (.cons "end_date".data (vstr f.end_date)
          (.cons "start_or_dates".data (vstr f.start_or_dates)
            (.cons "days".data (vstr f.days)
              (.cons "num_people".data (vstr f.num_people)
                (.cons "budget".data (vstr f.budget)
                  (.cons "style".data (vstr f.style)
                    (.cons "interests".data (vstr f.interests) .nil)))))))))

/-- The `REQUIRED_FIELDS` tuple from the source (lines 13-22). -/
def REQUIRED_FIELDS : List Str :=
  ["origin", "destination", "start_date", "end_date", "num_people",
   "budget", "style", "interests"].map String.data

/-- `fields.get(name, "")` on the normalize output. -/
def nfGet (f : NF) (k : Str) : Str :=
  if k = "origin".data then f.origin
  else if k = "destination".data then f.destination
  else if k = "start_date".data then f.start_date
  else if k = "end_date".data then f.end_date
  else if k = "start_or_dates".data then f.start_or_dates
  else if k = "days".data then f.days
  else if k = "num_people".data then f.num_people
  else if k = "budget".data then f.budget
  else if k = "style".data then f.style
  else if k = "interests".data then f.interests
  else []

/-- `fields[name] = v` on the normalize output. -/
def nfSet (f : NF) (k : Str) (v : Str) : NF :=
  if k = "origin".data then { f with origin := v }
  else if k = "destination".data then { f with destination := v }
  else if k = "start_date".data then { f with start_date := v }
  else if k = "end_date".data then { f with end_date := v }
  else if k = "start_or_dates".data then { f with start_or_dates := v }
  else if k = "days".data then { f with days := v }
  else if k = "num_people".data then { f with num_people := v }
  else if k = "budget".data then { f with budget := v }
  else if k = "style".data then { f with style := v }
  else if k = "interests".data then { f with interests := v }
  else f

/-- The inner `while True` prompt loop of `_collect_missing_fields` for
one field (run_crew.py lines 370-408): consume user inputs until one
passes the field's validation, returning the stored value and the
remaining inputs; `none` when the input stream is exhausted. -/
def solicitField (name : Str) : List Str → Option (Str × List Str)
  | [] => Option.none
  | raw :: rest =>
    if name = "num_people".data then
      match to_int_people (vstr (pyStrip raw)) with
      | some pv => some (pyStr pv, rest)
      | Option.none => solicitField name rest
    else if name = "start_date".data || name = "end_date".data then
      if is_missing_value (pyStrip raw) then solicitField name rest
      else if !validate_iso_date (pyStrip raw) then solicitField name rest
      else some ((pyStrip raw).take 10, rest)
    else if name = "budget".data then
      if is_missing_value (pyStrip raw) then solicitField name rest
      else if !validate_budget_format (pyStrip raw) then solicitField name rest
      else some (pyStrip raw, rest)
    else
      if is_missing_value (pyStrip raw) then solicitField name rest
      else some (pyStrip raw, rest)

/-- The `for field_name in missing` round of `_collect_missing_fields`. -/
def processMissing : List Str → NF → List Str → Option (NF × List Str)
  | [], fs, ins => some (fs, ins)
  | name :: rest, fs, ins =>
    match solicitField name ins with
    | some (v, ins') => processMissing rest (nfSet fs name v) ins'
    | Option.none => Option.none

/-- The outer `while True` of `_collect_missing_fields`: recompute the
missing set from scratch each round and return as soon as it is empty.
Each non-final round consumes at least one input, so the fuel
`|inputs| + 1` suffices; running out of fuel or inputs yields `none`
(the interactive program would still be waiting for input). -/
def collectGo : Nat → NF → List Str → Option (NF × List Str)
  | 0, _, _ => Option.none
  | fuel + 1, fs, ins =>
    if (REQUIRED_FIELDS.filter
        (fun n => is_missing_value (nfGet fs n))).isEmpty then
      some (fs, ins)
    else
      match processMissing (REQUIRED_FIELDS.filter
          (fun n => is_missing_value (nfGet fs n))) fs ins with
      | some (fs', ins') => collectGo fuel fs' ins'
      | Option.none => Option.none

/-- Embedding of `_collect_missing_fields` (run_crew.py lines 356-408),
with the interactive `input()` stream passed explicitly.  Returns the
updated fields and the unconsumed inputs. -/
def collect_missing_fields (fs : NF) (ins : List Str) : Option (NF × List Str) :=
  collectGo (ins.length + 1) fs ins

/-- The final field set handed to the downstream stages: the normalize
keys plus the `nights` and `currency` keys added by `main`. -/
structure RunFields where
  base : NF
  nights : Str
  currency : Str
deriving DecidableEq, Repr

/-- The days re-derivation of `main` (run_crew.py lines 441-446): days
recomputed from the dates, with no user prompt for days. -/
def deriveDays (fs : NF) : NF :=
  if !fs.start_date.isEmpty && !fs.end_date.isEmpty then
    { fs with days :=
        match days_between fs.start_date fs.end_date with
        | some d => intStr d
        | Option.none => [] }
  else { fs with days := [] }

/-- The `start_or_dates` backfill of `main` (run_crew.py lines 460-461). -/
def ensureDates (fs : NF) : NF :=
  if fs.start_or_dates.isEmpty && !fs.start_date.isEmpty &&
      !fs.end_date.isEmpty then
    { fs with start_or_dates := fs.start_date ++ " to ".data ++ fs.end_date }
  else fs

/-- The derivation steps of `main` after the completion loop
(run_crew.py lines 441-464): re-derive `days` from the dates, derive
`nights` from the re-derived days, fill `start_or_dates`, and resolve
the currency from the (untouched) budget. -/
def derive_after_collect (fs0 : NF) : RunFields :=
  { base := ensureDates (deriveDays fs0)
    nights := nights_of_days (deriveDays fs0).days
    currency := extract_currency_from_budget (ensureDates (deriveDays fs0)).budget }

/-- The field-processing core of `main` (run_crew.py lines 436-464)
starting from the extracted mapping: normalization, the completion loop,
and the derivation steps. -/
def corePipeline (extracted : PyPairs) (ins : List Str) : Option RunFields :=
  (collect_missing_fields (normalize_extracted_fields extracted) ins).map
    (fun p => derive_after_collect p.1)

/-! ### Basic lemmas about the string model -/

theorem dropWhile_all_false {p : Char → Bool} :
    ∀ {s : Str}, (∀ c ∈ s, p c = false) → s.dropWhile p = s := by
  intro s h
  induction s with
  | nil => rfl
  | cons c rest _ =>
    have hc := h c (List.mem_cons_self c rest)
    simp [List.dropWhile, hc]

theorem dropWhile_dropWhile {p : Char → Bool} (l : Str) :
    (l.dropWhile p).dropWhile p = l.dropWhile p := by
  induction l with
  | nil => rfl
  | cons c rest ih =>
    by_cases hc : p c
    · simpa [List.dropWhile, hc] using ih
    · simp [List.dropWhile, hc]

theorem dropWhile_suffix_ex {p : Char → Bool} (l : Str) :
    ∃ t, t ++ l.dropWhile p = l := by
  induction l with
  | nil => exact ⟨[], rfl⟩
  | cons c rest ih =>
    by_cases hc : p c
    · obtain ⟨t, ht⟩ := ih
      exact ⟨c :: t, by simp [List.dropWhile, hc, ht]⟩
    · exact ⟨[], by simp [List.dropWhile, hc]⟩

theorem dropWhile_len_le {p : Char → Bool} (l : Str) :
    (l.dropWhile p).length ≤ l.length := by
  obtain ⟨t, ht⟩ := dropWhile_suffix_ex (p := p) l
  have := congrArg List.length ht
  simp at this
  omega

theorem dropWhile_fixed_cons {p : Char → Bool} {c : Char} {rest : Str}
    (h : (c :: rest).dropWhile p = c :: rest) : p c = false := by
  cases hpc : p c
  · rfl
  · exfalso
    rw [List.dropWhile_cons_of_pos hpc] at h
    have hlen := dropWhile_len_le (p := p) rest
    rw [h] at hlen
    simp at hlen

/-- A string is trimmed: stripping whitespace from either end leaves it
unchanged. -/
def TrimFix (s : Str) : Prop :=
  s.dropWhile pyIsSpace = s ∧ s.reverse.dropWhile pyIsSpace = s.reverse

theorem trimFix_nil : TrimFix [] := ⟨rfl, rfl⟩

theorem trimFix_strip {t : Str} (h : TrimFix t) : pyStrip t = t := by
  unfold pyStrip
  rw [h.1, h.2, List.reverse_reverse]

theorem trimFix_of_nonspace {s : Str}
    (h : ∀ c ∈ s, pyIsSpace c = false) : TrimFix s := by
  refine ⟨dropWhile_all_false h, dropWhile_all_false ?_⟩
  intro c hc
  exact h c (List.mem_reverse.mp hc)

theorem pyStrip_trimFix (s : Str) : TrimFix (pyStrip s) := by
  constructor
  · cases hps : pyStrip s with
    | nil => rfl
    | cons c rest =>
      obtain ⟨t, ht⟩ := dropWhile_suffix_ex (p := pyIsSpace)
        ((s.dropWhile pyIsSpace).reverse)
      have ha : s.dropWhile pyIsSpace =
          pyStrip s ++ t.reverse := by
        have := congrArg List.reverse ht
        simpa [pyStrip] using this.symm
      have hfix : (s.dropWhile pyIsSpace).dropWhile pyIsSpace =
          s.dropWhile pyIsSpace := dropWhile_dropWhile s
      rw [ha, hps] at hfix
      have hc : pyIsSpace c = false := by
        have : (c :: (rest ++ t.reverse)).dropWhile pyIsSpace =
            c :: (rest ++ t.reverse) := by simpa using hfix
        exact dropWhile_fixed_cons this
      rw [hps] at *
      simp [List.dropWhile, hc]
  · have : (pyStrip s).reverse = (s.dropWhile pyIsSpace).reverse.dropWhile pyIsSpace := by
      simp [pyStrip]
    rw [this]
    exact dropWhile_dropWhile _

theorem pyStrip_idem (s : Str) : pyStrip (pyStrip s) = pyStrip s :=
  trimFix_strip (pyStrip_trimFix s)

theorem trimFix_head {c : Char} {rest : Str} (h : TrimFix (c :: rest)) :
    pyIsSpace c = false := dropWhile_fixed_cons h.1

theorem trimFix_append3 {a b : Str} (m : Str)
    (ha : TrimFix a) (hb : TrimFix b) (hna : a ≠ []) (hnb : b ≠ []) :
    TrimFix (a ++ m ++ b) := by
  constructor
  · cases a with
    | nil => exact absurd rfl hna
    | cons c ra =>
      have hc := trimFix_head ha
      simp [List.dropWhile, hc]
  · cases hbr : b.reverse with
    | nil => exact absurd (by simpa using congrArg List.reverse hbr) hnb
    | cons d rb =>
      have hd : pyIsSpace d = false := by
        have := hb.2
        rw [hbr] at this
        exact dropWhile_fixed_cons this
      simp only [List.reverse_append, hbr, List.append_assoc]
      simp [List.dropWhile, hd]

/-! ### Lemmas about the cleaners -/

theorem cleanStr_nil : cleanStr [] = [] := by decide

theorem cleanStr_eq_ite (s : Str) :
    cleanStr s =
      if MISSING_SENTINELS.contains (lowerStr (pyStrip s)) = true then []
      else pyStrip s := rfl

theorem cleanStr_trimFix (s : Str) : TrimFix (cleanStr s) := by
  rw [cleanStr_eq_ite]
  by_cases h : MISSING_SENTINELS.contains (lowerStr (pyStrip s)) = true
  · rw [if_pos h]; exact trimFix_nil
  · rw [if_neg h]; exact pyStrip_trimFix s

theorem cleanStr_not_sentinel {s : Str} (h : cleanStr s ≠ []) :
    MISSING_SENTINELS.contains (lowerStr (cleanStr s)) = false := by
  rw [cleanStr_eq_ite] at *
  by_cases hm : MISSING_SENTINELS.contains (lowerStr (pyStrip s)) = true
  · rw [if_pos hm] at h; exact absurd rfl h
  · rw [if_neg hm] at *
    exact Bool.not_eq_true _ |>.mp hm

theorem cleanStr_idem (s : Str) : cleanStr (cleanStr s) = cleanStr s := by
  by_cases h : cleanStr s = []
  · rw [h, cleanStr_nil]
  · have hns := cleanStr_not_sentinel h
    rw [cleanStr_eq_ite (cleanStr s), trimFix_strip (cleanStr_trimFix s), hns]
    simp

theorem clean_text_value_vstr (s : Str) :
    clean_text_value (vstr s) = cleanStr s := rfl

theorem cleanStr_clean (v : PyVal) :
    cleanStr (clean_text_value v) = clean_text_value v := by
  cases v with
  | vnone => exact cleanStr_nil
  | vbool b => exact cleanStr_idem _
  | vint i => exact cleanStr_idem _
  | vfloat raw => exact cleanStr_idem _
  | vstr s => exact cleanStr_idem _
  | vlist xs => exact cleanStr_idem _
  | vdict es => exact cleanStr_idem _

/-! ### Decimal numeral round trips -/

theorem digitVal_digitChar {d : Nat} (h : d < 10) :
    digitVal (Nat.digitChar d) = d := by
  interval_cases d <;> rfl

theorem digitChar_isDigit {d : Nat} (h : d < 10) :
    (Nat.digitChar d).isDigit = true := by
  interval_cases d <;> rfl

theorem digitsToNat_append_one (xs : Str) (c : Char) :
    digitsToNat (xs ++ [c]) = 10 * digitsToNat xs + digitVal c := by
  simp [digitsToNat, List.foldl_append]

theorem natStrAux_zero : ∀ fuel, natStrAux fuel 0 = [] := by
  intro fuel
  cases fuel <;> rfl

theorem natStrAux_spec :
    ∀ fuel n, 0 < n → n ≤ fuel →
      natStrAux fuel n ≠ [] ∧ (∀ c ∈ natStrAux fuel n, c.isDigit = true) ∧
        digitsToNat (natStrAux fuel n) = n := by
  intro fuel
  induction fuel with
  | zero => intro n h1 h2; omega
  | succ f ih =>
    intro n h1 h2
    obtain ⟨m, rfl⟩ : ∃ m, n = m + 1 := ⟨n - 1, by omega⟩
    show natStrAux (f + 1) (m + 1) ≠ [] ∧ _ ∧ _
    rw [natStrAux]
    by_cases hq : (m + 1) / 10 = 0
    · have hlt : m + 1 < 10 := by omega
      rw [hq, natStrAux_zero]
      have hmod : (m + 1) % 10 = m + 1 := Nat.mod_eq_of_lt hlt
      refine ⟨by simp, ?_, ?_⟩
      · intro c hc
        simp at hc
        rw [hc]
        exact digitChar_isDigit (by omega)
      · simp [digitsToNat, hmod, digitVal_digitChar hlt]
    · have hqpos : 0 < (m + 1) / 10 := Nat.pos_of_ne_zero hq
      have hqlt : (m + 1) / 10 < m + 1 := Nat.div_lt_self (by omega) (by omega)
      obtain ⟨hne, hdig, hval⟩ := ih ((m + 1) / 10) hqpos (by omega)
      refine ⟨by simp, ?_, ?_⟩
      · intro c hc
        rcases List.mem_append.mp hc with h | h
        · exact hdig c h
        · simp at h
          rw [h]
          exact digitChar_isDigit (Nat.mod_lt _ (by omega))
      · rw [digitsToNat_append_one, hval,
          digitVal_digitChar (Nat.mod_lt _ (by omega))]
        omega

theorem natStr_ne_nil (n : Nat) : natStr n ≠ [] := by
  unfold natStr
  by_cases h : n = 0
  · simp [h]
  · rw [if_neg h]
    exact (natStrAux_spec (n + 1) n (Nat.pos_of_ne_zero h) (by omega)).1

theorem natStr_all_digits (n : Nat) : ∀ c ∈ natStr n, c.isDigit = true := by
  by_cases h : n = 0
  · subst h; decide
  · rw [natStr, if_neg h]
    exact (natStrAux_spec (n + 1) n (Nat.pos_of_ne_zero h) (by omega)).2.1

theorem digitsToNat_natStr (n : Nat) : digitsToNat (natStr n) = n := by
  by_cases h : n = 0
  · subst h; decide
  · rw [natStr, if_neg h]
    exact (natStrAux_spec (n + 1) n (Nat.pos_of_ne_zero h) (by omega)).2.2

theorem intStr_of_pos {i : Int} (h : 0 < i) : intStr i = natStr i.toNat := by
  unfold intStr
  rw [if_neg (by omega)]

theorem isDigit_not_space {c : Char} (h : c.isDigit = true) :
    pyIsSpace c = false := by
  cases hs : pyIsSpace c
  · rfl
  · exfalso
    have hor : c = ' ' ∨ c = '\t' ∨ c = '\n' ∨ c = '\r' ∨ c = '\x0b' ∨
        c = '\x0c' := by
      simpa [pyIsSpace, or_assoc] using hs
    rcases hor with rfl | rfl | rfl | rfl | rfl | rfl <;>
      exact absurd h (by decide)

theorem takeWhile_all {p : Char → Bool} {s : Str}
    (h : ∀ c ∈ s, p c = true) : s.takeWhile p = s :=
  List.takeWhile_eq_self_iff.mpr h

theorem firstDigitRun_all {s : Str} (hne : s ≠ [])
    (hd : ∀ c ∈ s, c.isDigit = true) : firstDigitRun s = some s := by
  cases s with
  | nil => exact absurd rfl hne
  | cons c rest =>
    have hc := hd c (List.mem_cons_self c rest)
    rw [firstDigitRun, if_pos hc, takeWhile_all hd]

theorem pyStrip_all_digits {s : Str} (hd : ∀ c ∈ s, c.isDigit = true) :
    pyStrip s = s :=
  trimFix_strip (trimFix_of_nonspace (fun c hc => isDigit_not_space (hd c hc)))

/-- Digit characters never occur in the sentinel vocabulary, so an
all-digit nonempty string is never "missing". -/
theorem all_digits_not_sentinel {s : Str} (hne : s ≠ [])
    (hd : ∀ c ∈ s, c.isDigit = true) :
    MISSING_SENTINELS.contains s = false := by
  cases hc : MISSING_SENTINELS.contains s
  · rfl
  · exfalso
    have hmem : s ∈ MISSING_SENTINELS := by simpa using hc
    simp only [MISSING_SENTINELS, List.map, List.mem_cons] at hmem
    rcases hmem with h | h | h | h | h | h | h | h
    · exact hne (by simpa using h)
    · exact absurd (hd 'n' (by rw [h]; decide)) (by decide)
    · exact absurd (hd 'n' (by rw [h]; decide)) (by decide)
    · exact absurd (hd 'n' (by rw [h]; decide)) (by decide)
    · exact absurd (hd 'n' (by rw [h]; decide)) (by decide)
    · exact absurd (hd 'u' (by rw [h]; decide)) (by decide)
    · exact absurd (hd 'n' (by rw [h]; decide)) (by decide)
    · simp at h

theorem toLower_digit {c : Char} (h : c.isDigit = true) :
    c.toLower = c := by
  simp only [Char.isDigit, Bool.and_eq_true, decide_eq_true_eq] at h
  have hle : c.toNat ≤ 57 := h.2
  show (if c.toNat ≥ 65 ∧ c.toNat ≤ 90 then Char.ofNat (c.toNat + 32) else c) = c
  rw [if_neg (by omega)]

theorem lowerStr_all_digits {s : Str} (hd : ∀ c ∈ s, c.isDigit = true) :
    lowerStr s = s := by
  unfold lowerStr
  induction s with
  | nil => rfl
  | cons c rest ih =>
    simp only [List.map]
    rw [toLower_digit (hd c (List.mem_cons_self c rest)),
      ih (fun d hdm => hd d (List.mem_cons_of_mem c hdm))]

/-! ### Round trips through the lenient integer parsers -/

theorem to_int_funs_eq (v : PyVal) : to_int_days v = to_int_people v := by
  cases v <;> rfl

theorem digit_ne_plus {c : Char} (h : c.isDigit = true) : c ≠ '+' := by
  intro hc
  rw [hc] at h
  exact absurd h (by decide)

theorem digit_ne_minus {c : Char} (h : c.isDigit = true) : c ≠ '-' := by
  intro hc
  rw [hc] at h
  exact absurd h (by decide)

theorem digit_ne_underscore {c : Char} (h : c.isDigit = true) : c ≠ '_' := by
  intro hc
  rw [hc] at h
  exact absurd h (by decide)

theorem to_int_days_natStr {n : Nat} (h : 0 < n) :
    to_int_days (vstr (natStr n)) = some (vint n) := by
  have hall := natStr_all_digits n
  have hne := natStr_ne_nil n
  show (let text := pyStrip (pyStr (vstr (natStr n)));
    match firstDigitRun text with
    | Option.none => Option.none
    | some run =>
      let parsed := digitsToNat run
      if 0 < parsed then some (vint parsed) else Option.none) = some (vint n)
  show (match firstDigitRun (pyStrip (natStr n)) with
    | Option.none => Option.none
    | some run =>
      let parsed := digitsToNat run
      if 0 < parsed then some (vint parsed) else Option.none) = some (vint n)
  rw [pyStrip_all_digits hall, firstDigitRun_all hne hall]
  simp only [digitsToNat_natStr]
  rw [if_pos h]

theorem to_int_days_pos {v : PyVal} {i : Int}
    (h : to_int_days v = some (vint i)) : 0 < i := by
  cases v with
  | vnone => exact absurd h (by simp [to_int_days])
  | vint j =>
    by_cases hj : 0 < j
    · rw [to_int_days, if_pos hj] at h
      cases h
      exact hj
    · rw [to_int_days, if_neg hj] at h
      cases h
  | vbool b =>
    cases b
    · exact absurd h (by simp [to_int_days])
    · rw [to_int_days, if_pos rfl] at h
      cases h
  | vfloat raw => exact to_int_pos_strcase h
  | vstr s => exact to_int_pos_strcase h
  | vlist xs => exact to_int_pos_strcase h
  | vdict es => exact to_int_pos_strcase h
where
  to_int_pos_strcase {v : PyVal} {i : Int}
      (h : (match firstDigitRun (pyStrip (pyStr v)) with
        | Option.none => Option.none
        | some run =>
          let parsed := digitsToNat run
          if 0 < parsed then some (vint (parsed : Int)) else Option.none) =
          some (vint i)) : 0 < i := by
    cases hr : firstDigitRun (pyStrip (pyStr v)) with
    | none => rw [hr] at h; cases h
    | some run =>
      rw [hr] at h
      simp only at h
      by_cases hp : 0 < digitsToNat run
      · rw [if_pos hp] at h
        cases h
        exact_mod_cast hp
      · rw [if_neg hp] at h
        cases h

/-! ### Substring membership -/

theorem startsWithS_iff (p l : Str) :
    startsWithS l p = true ↔ ∃ r, l = p ++ r := by
  induction p generalizing l with
  | nil => simp [startsWithS]
  | cons d p' ih =>
    cases l with
    | nil =>
      simp only [startsWithS]
      constructor
      · intro h; cases h
      · rintro ⟨r, hr⟩; cases hr
    | cons c l' =>
      simp only [startsWithS, Bool.and_eq_true, decide_eq_true_eq]
      constructor
      · rintro ⟨rfl, h2⟩
        obtain ⟨r, rfl⟩ := (ih l').mp h2
        exact ⟨r, rfl⟩
      · rintro ⟨r, hr⟩
        injection hr with h1 h2
        exact ⟨h1, (ih l').mpr ⟨r, h2⟩⟩

theorem containsSub_iff (l sub : Str) :
    containsSub l sub = true ↔ ∃ a b, l = a ++ sub ++ b := by
  induction l with
  | nil =>
    simp only [containsSub, List.isEmpty_iff]
    constructor
    · rintro rfl; exact ⟨[], [], rfl⟩
    · rintro ⟨a, b, hab⟩
      rcases List.append_eq_nil.mp
        (List.append_eq_nil.mp hab.symm).1 with ⟨_, h2⟩
      exact h2
  | cons c rest ih =>
    simp only [containsSub, Bool.or_eq_true]
    constructor
    · rintro (h | h)
      · obtain ⟨r, hr⟩ := (startsWithS_iff sub (c :: rest)).mp h
        exact ⟨[], r, by simpa using hr⟩
      · obtain ⟨a, b, hab⟩ := ih.mp h
        exact ⟨c :: a, b, by simp [hab]⟩
    · rintro ⟨a, b, hab⟩
      cases a with
      | nil =>
        left
        exact (startsWithS_iff sub (c :: rest)).mpr ⟨b, by simpa using hab⟩
      | cons a0 a' =>
        right
        injection hab with h1 h2
        exact ih.mpr ⟨a', b, h2⟩

theorem containsSub_of_split {l sub a b : Str} (h : l = a ++ sub ++ b) :
    containsSub l sub = true := (containsSub_iff l sub).mpr ⟨a, b, h⟩

/-! ### Currency resolver lemmas -/

theorem findSym_first {s : Str} :
    ∀ (pre : List (Str × Str)) (p : Str × Str) (post : List (Str × Str)),
      containsSub s p.1 = true → (∀ q ∈ pre, containsSub s q.1 = false) →
      findSym (pre ++ p :: post) s = some p.2 := by
  intro pre
  induction pre with
  | nil =>
    rintro ⟨ps, pc⟩ post hc _
    simp only [List.nil_append, findSym]
    rw [if_pos hc]
  | cons q pre' ih =>
    rintro p post hc hpre
    obtain ⟨qs, qc⟩ := q
    have hq := hpre (qs, qc) (List.mem_cons_self _ pre')
    simp only [List.cons_append, findSym]
    rw [if_neg (by simp at hq ⊢; exact hq)]
    exact ih p post hc (fun r hr => hpre r (List.mem_cons_of_mem _ hr))

theorem findSym_none {s : Str} :
    ∀ L : List (Str × Str), (∀ q ∈ L, containsSub s q.1 = false) →
      findSym L s = Option.none := by
  intro L
  induction L with
  | nil => intro _; rfl
  | cons q rest ih =>
    intro h
    obtain ⟨qs, qc⟩ := q
    have hq := h (qs, qc) (List.mem_cons_self _ rest)
    simp only [findSym]
    rw [if_neg (by simp at hq ⊢; exact hq)]
    exact ih (fun r hr => h r (List.mem_cons_of_mem _ hr))

/-! ### Claim theorems: C10 and C8 -/

/-- C10: the integer parser for days and the integer parser for number
of people are extensionally equal on every Python value, so the two
normalizers are interchangeable. -/
theorem to_int_days_people_ext_eq : ∀ v : PyVal, to_int_days v = to_int_people v :=
  to_int_funs_eq

/-- C8: the budget-failure detector returns true exactly when the
lower-cased audit text contains one of the fixed keywords as a
substring; in particular a text containing "Over Budget by 15%" is
flagged and "within budget, confidence high" is not. -/
theorem audit_suggests_fail_spec :
    (∀ t : Str, audit_suggests_fail t = true ↔
      ∃ k ∈ AUDIT_FAIL_KEYWORDS, ∃ a b, lowerStr t = a ++ k ++ b) ∧
    audit_suggests_fail "Over Budget by 15%".data = true ∧
    audit_suggests_fail "within budget, confidence high".data = false := by
  refine ⟨?_, by decide, by decide⟩
  intro t
  unfold audit_suggests_fail
  rw [List.any_eq_true]
  constructor
  · rintro ⟨k, hk, hc⟩
    exact ⟨k, hk, (containsSub_iff _ _).mp hc⟩
  · rintro ⟨k, hk, a, b, hab⟩
    exact ⟨k, hk, containsSub_of_split hab⟩

/-! ### Claim theorem: C4 -/

/-- C4: the currency resolver returns the code of the first symbol (in
the descending-length, stability-preserving order) occurring as a
substring; with no symbol present, the first free-standing 3-letter
uppercase token of the uppercased string; with neither, "USD". -/
theorem extract_currency_resolution_spec :
    (∀ (s : Str) (pre : List (Str × Str)) (sym code : Str)
        (post : List (Str × Str)),
      sortByLenDesc CURRENCY_SYMBOL_PAIRS = pre ++ (sym, code) :: post →
      containsSub s sym = true →
      (∀ q ∈ pre, containsSub s q.1 = false) →
      extract_currency_from_budget s = code) ∧
    (∀ s c : Str,
      (∀ q ∈ sortByLenDesc CURRENCY_SYMBOL_PAIRS, containsSub s q.1 = false) →
      findCode3 (upperStr s) = some c →
      extract_currency_from_budget s = c) ∧
    (∀ s : Str,
      (∀ q ∈ sortByLenDesc CURRENCY_SYMBOL_PAIRS, containsSub s q.1 = false) →
      findCode3 (upperStr s) = Option.none →
      extract_currency_from_budget s = "USD".data) := by
  refine ⟨?_, ?_, ?_⟩
  · intro s pre sym code post hsort hc hpre
    have hmem : (sym, code) ∈ sortByLenDesc CURRENCY_SYMBOL_PAIRS := by
      rw [hsort]; simp
    have hsymne : sym ≠ [] := by
      have hall : ∀ q ∈ sortByLenDesc CURRENCY_SYMBOL_PAIRS, q.1 ≠ [] := by
        decide
      exact hall _ hmem
    have hsne : s ≠ [] := by
      rintro rfl
      cases sym with
      | nil => exact hsymne rfl
      | cons c cs => simp [containsSub, List.isEmpty] at hc
    unfold extract_currency_from_budget
    rw [if_neg (by simpa [List.isEmpty_iff] using hsne), hsort,
      findSym_first pre (sym, code) post hc hpre]
  · intro s c hall hcode
    unfold extract_currency_from_budget
    by_cases hse : s = []
    · subst hse
      simp [upperStr, findCode3, findCode3Aux] at hcode
    · rw [if_neg (by simpa [List.isEmpty_iff] using hse),
        findSym_none _ hall, hcode]
  · intro s hall hcode
    unfold extract_currency_from_budget
    by_cases hse : s = []
    · subst hse; simp
    · rw [if_neg (by simpa [List.isEmpty_iff] using hse),
        findSym_none _ hall, hcode]

/-- Witness for C4: a symbol match ("₹15,000" resolves to INR, with the
two-character "S$" checked before "$"), a bare-code match, and
the USD default, each instantiating the theorem. -/
theorem extract_currency_resolution_witness :
    extract_currency_from_budget "₹15,000".data = "INR".data ∧
    extract_currency_from_budget "S$100".data = "SGD".data ∧
    extract_currency_from_budget "amount 20000 EUR please".data = "EUR".data ∧
    extract_currency_from_budget "12345 money".data = "USD".data :=
  ⟨extract_currency_resolution_spec.1 "₹15,000".data
      [("د.إ".data, "AED".data), ("S$".data, "SGD".data), ("$".data, "USD".data),
       ("€".data, "EUR".data), ("£".data, "GBP".data)]
      "₹".data "INR".data
      [("¥".data, "JPY".data), ("₩".data, "KRW".data), ("₺".data, "TRY".data),
       ("₫".data, "VND".data), ("฿".data, "THB".data)]
      (by decide) (by decide) (by decide),
   extract_currency_resolution_spec.1 "S$100".data
      [("د.إ".data, "AED".data)] "S$".data "SGD".data
      [("$".data, "USD".data), ("€".data, "EUR".data), ("£".data, "GBP".data),
       ("₹".data, "INR".data), ("¥".data, "JPY".data), ("₩".data, "KRW".data),
       ("₺".data, "TRY".data), ("₫".data, "VND".data), ("฿".data, "THB".data)]
      (by decide) (by decide) (by decide),
   extract_currency_resolution_spec.2.1 "amount 20000 EUR please".data
      "EUR".data (by decide) (by decide),
   extract_currency_resolution_spec.2.2 "12345 money".data
      (by decide) (by decide)⟩

/-! ### Python int() round trip and the nights derivation (C6) -/

theorem digitsToNat_cons (c : Char) (rest : Str) :
    digitsToNat (c :: rest) =
      rest.foldl (fun a d => 10 * a + digitVal d) (digitVal c) := by
  simp [digitsToNat]

theorem pyDigitsU_all {s : Str} (h : ∀ c ∈ s, c.isDigit = true) :
    ∀ acc, pyDigitsU acc s =
      some (s.foldl (fun a c => 10 * a + digitVal c) acc) := by
  induction s with
  | nil => intro acc; rfl
  | cons c rest ih =>
    intro acc
    have hc := h c (List.mem_cons_self c rest)
    rw [pyDigitsU.eq_def]
    simp only [digit_ne_underscore hc, hc, if_true, if_false, ite_false,
      ite_true, List.foldl_cons]
    exact ih (fun d hd => h d (List.mem_cons_of_mem c hd)) _

theorem pyIntBody_digits {c : Char} {rest : Str}
    (hall : ∀ d ∈ c :: rest, d.isDigit = true) :
    pyIntBody (c :: rest) = some ((digitsToNat (c :: rest) : Int)) := by
  have hc := hall c (List.mem_cons_self c rest)
  show (if c = '+' then _ else if c = '-' then _
    else (pyDigitsStart (c :: rest)).map (fun n => (n : Int))) = _
  rw [if_neg (digit_ne_plus hc), if_neg (digit_ne_minus hc)]
  show (if c.isDigit then pyDigitsU (digitVal c) rest else Option.none).map
      (fun n => (n : Int)) = _
  rw [if_pos hc,
    pyDigitsU_all (fun d hd => hall d (List.mem_cons_of_mem c hd))
      (digitVal c), digitsToNat_cons]
  rfl

theorem pyIntParse_natStr {n : Nat} (_h : 0 < n) :
    pyIntParse (natStr n) = some (n : Int) := by
  have hall := natStr_all_digits n
  unfold pyIntParse
  rw [pyStrip_all_digits hall]
  cases hs : natStr n with
  | nil => exact absurd hs (natStr_ne_nil n)
  | cons c rest =>
    rw [hs] at hall
    rw [pyIntBody_digits hall, ← hs, digitsToNat_natStr]

theorem natStr_pos_ne_zero_str {m : Nat} (h : 0 < m) : natStr m ≠ ['0'] := by
  intro hc
  have := digitsToNat_natStr m
  rw [hc] at this
  simp [digitsToNat, digitVal] at this
  omega

/-- C6: with `days` the decimal string of a positive integer d, `nights`
is the decimal string of d - 1 when that is positive and empty when
d = 1; with `days` empty or unparseable, `nights` is empty; `nights` is
never the numeric string "0". -/
theorem nights_derivation_spec :
    (∀ d : Nat, 0 < d →
      nights_of_days (natStr d) = if d = 1 then [] else natStr (d - 1)) ∧
    nights_of_days [] = [] ∧
    (∀ s : Str, pyIntParse s = Option.none → nights_of_days s = []) ∧
    (∀ s : Str, nights_of_days s ≠ ['0']) := by
  have hstep : ∀ s : Str, nights_of_days s = [] ∨
      ∃ nv : Int, 0 < nv ∧ nights_of_days s = intStr nv := by
    intro s
    by_cases he : s.isEmpty
    · left; unfold nights_of_days; rw [if_pos he]
    · cases hp : pyIntParse s with
      | none => left; unfold nights_of_days; rw [if_neg he, hp]
      | some n =>
        by_cases hnv : (0 : Int) < max (n - 1) 0
        · right
          refine ⟨max (n - 1) 0, hnv, ?_⟩
          unfold nights_of_days
          rw [if_neg he, hp]
          simp only [if_pos hnv]
        · left
          unfold nights_of_days
          rw [if_neg he, hp]
          simp only [if_neg hnv]
  refine ⟨?_, rfl, ?_, ?_⟩
  · intro d hd
    unfold nights_of_days
    rw [if_neg (by simpa [List.isEmpty_iff] using natStr_ne_nil d),
      pyIntParse_natStr hd]
    by_cases h1 : d = 1
    · subst h1
      norm_num
    · rw [if_neg h1]
      have hd2 : 2 ≤ d := by omega
      have hmax : max ((d : Int) - 1) 0 = (d : Int) - 1 := by omega
      simp only [hmax]
      rw [if_pos (by omega)]
      rw [intStr_of_pos (by omega)]
      congr 1
      omega
  · intro s hp
    unfold nights_of_days
    by_cases he : s.isEmpty
    · rw [if_pos he]
    · rw [if_neg he, hp]
  · intro s hc
    rcases hstep s with h | ⟨nv, hnv, h⟩
    · rw [h] at hc; cases hc
    · rw [h] at hc
      rw [intStr_of_pos hnv] at hc
      exact natStr_pos_ne_zero_str (by omega) hc

/-- Witness for C6: the theorem applied at days 5, days 1, and an
unparseable days string. -/
theorem nights_derivation_witness :
    nights_of_days (natStr 5) = (if 5 = 1 then [] else natStr (5 - 1)) ∧
    nights_of_days (natStr 1) = (if 1 = 1 then [] else natStr (1 - 1)) ∧
    pyIntParse "no digits".data = Option.none ∧
    nights_of_days "no digits".data = [] :=
  ⟨nights_derivation_spec.1 5 (by decide),
   nights_derivation_spec.1 1 (by decide),
   by decide,
   nights_derivation_spec.2.2.1 "no digits".data (by decide)⟩

/-! ### The lenient integer parser (C5) -/

theorem to_int_days_shape {v pv : PyVal} (h : to_int_days v = some pv) :
    (∃ i : Int, pv = vint i) ∨ (∃ b : Bool, pv = vbool b) := by
  cases v with
  | vnone => cases h
  | vint j =>
    by_cases hj : 0 < j
    · rw [to_int_days, if_pos hj] at h
      cases h
      exact Or.inl ⟨j, rfl⟩
    · rw [to_int_days, if_neg hj] at h
      cases h
  | vbool b =>
    cases b
    · cases h
    · rw [to_int_days, if_pos rfl] at h
      cases h
      exact Or.inr ⟨true, rfl⟩
  | vfloat raw => exact shape_strcase h
  | vstr s => exact shape_strcase h
  | vlist xs => exact shape_strcase h
  | vdict es => exact shape_strcase h
where
  shape_strcase {v pv : PyVal}
      (h : (match firstDigitRun (pyStrip (pyStr v)) with
        | Option.none => Option.none
        | some run =>
          let parsed := digitsToNat run
          if 0 < parsed then some (vint (parsed : Int)) else Option.none) =
          some pv) : (∃ i : Int, pv = vint i) ∨ (∃ b : Bool, pv = vbool b) := by
    cases hr : firstDigitRun (pyStrip (pyStr v)) with
    | none => rw [hr] at h; cases h
    | some run =>
      rw [hr] at h
      simp only at h
      by_cases hp : 0 < digitsToNat run
      · rw [if_pos hp] at h
        cases h
        exact Or.inl ⟨_, rfl⟩
      · rw [if_neg hp] at h
        cases h

theorem normalize_days_eq (m : PyPairs) :
    (normalize_extracted_fields m).days =
      (match to_int_days (pyGetN m "days".data) with
       | some pv => pyStr pv
       | Option.none =>
         if !(normalize_extracted_fields m).start_date.isEmpty &&
             !(normalize_extracted_fields m).end_date.isEmpty then
           match days_between (normalize_extracted_fields m).start_date
               (normalize_extracted_fields m).end_date with
           | some d => intStr d
           | Option.none => []
         else []) := rfl

theorem days_between_pos {s e : Str} {d : Int}
    (h : days_between s e = some d) : 0 < d := by
  unfold days_between at h
  split at h
  · rename_i a b hqa hqb
    by_cases hlt : dtLtB b a = true
    · rw [if_pos hlt] at h; cases h
    · rw [if_neg hlt] at h
      by_cases hd : (0 : Int) < (toOrd b : Int) - (toOrd a : Int) + 1
      · rw [if_pos hd] at h
        cases h
        exact hd
      · rw [if_neg hd] at h
        cases h
  · cases h

theorem normalize_days_shape (m : PyPairs)
    (hb : ∀ b : Bool, to_int_days (pyGetN m "days".data) ≠ some (vbool b)) :
    (normalize_extracted_fields m).days = [] ∨
      ∃ p : Int, 0 < p ∧ (normalize_extracted_fields m).days = intStr p := by
  rw [normalize_days_eq]
  cases hd : to_int_days (pyGetN m "days".data) with
  | some pv =>
    rcases to_int_days_shape hd with ⟨i, rfl⟩ | ⟨b, rfl⟩
    · exact Or.inr ⟨i, to_int_days_pos hd, rfl⟩
    · exact absurd hd (hb b)
  | none =>
    by_cases hse : (!(normalize_extracted_fields m).start_date.isEmpty &&
        !(normalize_extracted_fields m).end_date.isEmpty) = true
    · rw [if_pos hse]
      cases hdb : days_between (normalize_extracted_fields m).start_date
          (normalize_extracted_fields m).end_date with
      | some d => exact Or.inr ⟨d, days_between_pos hdb, rfl⟩
      | none => exact Or.inl rfl
    · rw [if_neg hse]
      exact Or.inl rfl

theorem normalize_people_eq (m : PyPairs) :
    (normalize_extracted_fields m).num_people =
      (match to_int_people (pyOr (pyGetN m "num_people".data)
          (pyGetN m "number_of_people".data)) with
       | some pv => pyStr pv
       | Option.none => []) := rfl

theorem to_int_people_shape {v pv : PyVal}
    (h : to_int_people v = some pv) :
    (∃ i : Int, pv = vint i) ∨ (∃ b : Bool, pv = vbool b) :=
  to_int_days_shape (to_int_funs_eq v ▸ h)

theorem to_int_people_pos {v : PyVal} {i : Int}
    (h : to_int_people v = some (vint i)) : 0 < i :=
  to_int_days_pos (v := v) (to_int_funs_eq v ▸ h)

theorem normalize_people_shape (m : PyPairs)
    (hb : ∀ b : Bool, to_int_people (pyOr (pyGetN m "num_people".data)
      (pyGetN m "number_of_people".data)) ≠ some (vbool b)) :
    (normalize_extracted_fields m).num_people = [] ∨
      ∃ p : Int, 0 < p ∧
        (normalize_extracted_fields m).num_people = intStr p := by
  rw [normalize_people_eq]
  cases hd : to_int_people (pyOr (pyGetN m "num_people".data)
      (pyGetN m "number_of_people".data)) with
  | some pv =>
    rcases to_int_people_shape hd with ⟨i, rfl⟩ | ⟨b, rfl⟩
    · exact Or.inr ⟨i, to_int_people_pos hd, rfl⟩
    · exact absurd hd (hb b)
  | none => exact Or.inl rfl

/-- Counterexample for C5: Python's `bool` is an `int` subtype, so the
parser returns the boolean `True` unchanged and the normalizer stores
the non-numeric string "True"; no positive integer has that decimal
representation. -/
theorem to_int_days_bool_cex :
    to_int_days (vbool true) = some (vbool true) ∧
    (normalize_extracted_fields
      (.cons "days".data (vbool true) .nil)).days = "True".data ∧
    (∀ n : Nat, natStr n ≠ "True".data) := by
  refine ⟨rfl, rfl, ?_⟩
  intro n hc
  have hall := natStr_all_digits n
  rw [hc] at hall
  exact absurd (hall 'T' (by decide)) (by decide)

/-- C5 (amended): a native positive `int` is returned as-is and a
non-positive one rejected; any non-int input is stringified and the
first digit run parsed, ignoring sign and decimal point ("3.5 days"
yields 3, "-2" yields 2); the result is absent when no digit run exists
or the value parses non-positive, and any integer the parser returns is
positive — so the stored `days` value is empty or a positive decimal
numeral, except that the boolean `True` (an `int` instance in Python)
passes through and is stored as "True". -/
theorem to_int_days_lenient_spec :
    (∀ i : Int, 0 < i → to_int_days (vint i) = some (vint i)) ∧
    (∀ i : Int, i ≤ 0 → to_int_days (vint i) = Option.none) ∧
    to_int_days (vstr "3.5 days".data) = some (vint 3) ∧
    to_int_days (vstr "-2".data) = some (vint 2) ∧
    (∀ s : Str, firstDigitRun (pyStrip s) = Option.none →
      to_int_days (vstr s) = Option.none) ∧
    (∀ (v : PyVal) (i : Int), to_int_days v = some (vint i) → 0 < i) ∧
    (∀ m : PyPairs,
      (∀ b : Bool, to_int_days (pyGetN m "days".data) ≠ some (vbool b)) →
      (normalize_extracted_fields m).days = [] ∨
      ∃ p : Int, 0 < p ∧ (normalize_extracted_fields m).days = intStr p) := by
  refine ⟨?_, ?_, rfl, rfl, ?_, ?_, ?_⟩
  · intro i hi
    rw [to_int_days, if_pos hi]
  · intro i hi
    rw [to_int_days, if_neg (by omega)]
  · intro s hr
    show (match firstDigitRun (pyStrip (pyStr (vstr s))) with
      | Option.none => Option.none
      | some run =>
        let parsed := digitsToNat run
        if 0 < parsed then some (vint (parsed : Int)) else Option.none) =
        Option.none
    show (match firstDigitRun (pyStrip s) with
      | Option.none => Option.none
      | some run =>
        let parsed := digitsToNat run
        if 0 < parsed then some (vint (parsed : Int)) else Option.none) =
        Option.none
    rw [hr]
  · exact fun v i h => to_int_days_pos h
  · exact fun m hb => normalize_days_shape m hb

/-- Witness for C5 (amended): the theorem applied at the int 4, the
int -4, the literal example strings, a digit-free string, and a mapping
whose `days` entry is a plain string. -/
theorem to_int_days_lenient_witness :
    to_int_days (vint 4) = some (vint 4) ∧
    to_int_days (vint (-4)) = Option.none ∧
    to_int_days (vstr "no digits here".data) = Option.none ∧
    (0 : Int) < 3 ∧
    ((normalize_extracted_fields
        (.cons "days".data (vstr "7 days".data) .nil)).days = [] ∨
      ∃ p : Int, 0 < p ∧
        (normalize_extracted_fields
          (.cons "days".data (vstr "7 days".data) .nil)).days = intStr p) :=
  ⟨to_int_days_lenient_spec.1 4 (by decide),
   to_int_days_lenient_spec.2.1 (-4) (by decide),
   to_int_days_lenient_spec.2.2.2.2.1 "no digits here".data (by decide),
   to_int_days_lenient_spec.2.2.2.2.2.1 (vstr "3.5 days".data) 3 rfl,
   to_int_days_lenient_spec.2.2.2.2.2.2
     (.cons "days".data (vstr "7 days".data) .nil)
     (fun b h => by cases h)⟩

/-! ### Date arithmetic: validity and monotonicity (C3) -/

theorem parseMonth_bounds {r : Str} {m : Nat} {rest : Str}
    (h : parseMonth r = some (m, rest)) : 1 ≤ m ∧ m ≤ 12 := by
  unfold parseMonth at h
  split at h
  · split at h
    · rename_i hc
      simp only [inRange, Bool.and_eq_true, decide_eq_true_eq] at hc
      cases h
      unfold digitVal
      omega
    · split at h
      · rename_i hc
        simp only [inRange, Bool.and_eq_true, decide_eq_true_eq] at hc
        cases h
        unfold digitVal
        omega
      · split at h
        · rename_i hc
          simp only [inRange, Bool.and_eq_true, decide_eq_true_eq] at hc
          cases h
          unfold digitVal
          omega
        · cases h
  · split at h
    · rename_i hc
      simp only [inRange, Bool.and_eq_true, decide_eq_true_eq] at hc
      cases h
      unfold digitVal
      omega
    · cases h
  · cases h

theorem parseDay_bounds {r : Str} {d : Nat} {rest : Str}
    (h : parseDay r = some (d, rest)) : 1 ≤ d ∧ d ≤ 31 := by
  unfold parseDay at h
  split at h
  · split at h
    · rename_i hc
      simp only [inRange, Bool.and_eq_true, decide_eq_true_eq] at hc
      cases h
      unfold digitVal
      omega
    · split at h
      · rename_i hc
        simp only [inRange, Bool.and_eq_true, Bool.or_eq_true,
          decide_eq_true_eq] at hc
        obtain ⟨hc1, hge, hle⟩ := hc
        cases h
        unfold digitVal
        have e1 : ('1' : Char).toNat = 49 := rfl
        have e2 : ('2' : Char).toNat = 50 := rfl
        rcases hc1 with rfl | rfl <;> omega
      · split at h
        · rename_i hc
          simp only [inRange, Bool.and_eq_true, decide_eq_true_eq] at hc
          cases h
          unfold digitVal
          omega
        · split at h
          · rename_i hc
            simp only [inRange, Bool.and_eq_true, decide_eq_true_eq] at hc
            cases h
            unfold digitVal
            omega
          · cases h
  · split at h
    · rename_i hc
      simp only [inRange, Bool.and_eq_true, decide_eq_true_eq] at hc
      cases h
      unfold digitVal
      omega
    · cases h
  · cases h

theorem strptimeYmd_valid {s : Str} {a : DateD}
    (h : strptimeYmd s = some a) : ValidDate a := by
  unfold strptimeYmd at h
  split at h
  · split at h
    · split at h
      · split at h
        · split at h
          · rename_i x1 m rest2 hpm x2 dd hpd hcond
            cases h
            obtain ⟨hm1, hm12⟩ := parseMonth_bounds hpm
            obtain ⟨hd1, _⟩ := parseDay_bounds hpd
            exact ⟨hcond.1, hm1, hm12, hd1, hcond.2⟩
          · cases h
        · cases h
      · cases h
    · cases h
  · cases h

theorem parse_iso_date_valid {v : PyVal} {a : DateD}
    (h : parse_iso_date v = some a) : ValidDate a := by
  unfold parse_iso_date at h
  split at h
  · cases h
  · split at h
    · cases h
    · exact strptimeYmd_valid h

theorem dbmL_add_dim_le {l : Bool} {m1 m2 : Nat} (h1 : 1 ≤ m1)
    (hlt : m1 < m2) (h2 : m2 ≤ 12) :
    daysBeforeMonthL l m1 + daysInMonthL l m1 ≤ daysBeforeMonthL l m2 := by
  have key : ∀ (l : Bool), ∀ m1 < 13, ∀ m2 < 13, 1 ≤ m1 → m1 < m2 →
      daysBeforeMonthL l m1 + daysInMonthL l m1 ≤ daysBeforeMonthL l m2 := by
    decide
  exact key l m1 (by omega) m2 (by omega) h1 hlt

theorem dbmL_dim_le_year {l : Bool} {m : Nat} (h1 : 1 ≤ m) (h2 : m ≤ 12) :
    daysBeforeMonthL l m + daysInMonthL l m ≤ (if l then 366 else 365) := by
  have key : ∀ (l : Bool), ∀ m < 13, 1 ≤ m →
      daysBeforeMonthL l m + daysInMonthL l m ≤ (if l then 366 else 365) := by
    decide
  exact key l m (by omega) h1

set_option maxHeartbeats 2000000 in
theorem dby_succ {y : Nat} (hy : 1 ≤ y) :
    daysBeforeYear (y + 1) =
      daysBeforeYear y + (if isLeap y then 366 else 365) := by
  by_cases hl : isLeap y = true
  · rw [if_pos hl]
    have hl' : (y % 4 = 0 ∧ ¬y % 100 = 0) ∨ y % 400 = 0 := by
      simpa [isLeap] using hl
    unfold daysBeforeYear
    omega
  · rw [if_neg hl]
    have hlf : isLeap y = false := by
      cases hb : isLeap y
      · rfl
      · exact absurd hb hl
    have hl' : ¬((y % 4 = 0 ∧ ¬y % 100 = 0) ∨ y % 400 = 0) := by
      simpa [isLeap, Bool.or_eq_false_iff, Bool.and_eq_false_iff] using hlf
    unfold daysBeforeYear
    omega

theorem dby_mono {y1 y2 : Nat} (h : y1 ≤ y2) :
    daysBeforeYear y1 ≤ daysBeforeYear y2 := by
  unfold daysBeforeYear
  have d4 : (y1 - 1) / 4 ≤ (y2 - 1) / 4 := Nat.div_le_div_right (by omega)
  have d100 : (y1 - 1) / 100 ≤ (y2 - 1) / 100 := Nat.div_le_div_right (by omega)
  have d400 : (y1 - 1) / 400 ≤ (y2 - 1) / 400 := Nat.div_le_div_right (by omega)
  have dd : (y1 - 1) / 100 ≤ (y1 - 1) / 4 := Nat.div_le_div_left (by omega) (by omega)
  have dd2 : (y2 - 1) / 100 ≤ (y2 - 1) / 4 := Nat.div_le_div_left (by omega) (by omega)
  omega

theorem toOrd_mono {a b : DateD} (ha : ValidDate a) (hb : ValidDate b)
    (h : dtLtB b a = false) : toOrd a ≤ toOrd b := by
  obtain ⟨y1, m1, d1⟩ := a
  obtain ⟨y2, m2, d2⟩ := b
  obtain ⟨hay, ham1, ham12, had1, hadm⟩ := ha
  obtain ⟨hby, hbm1, hbm12, hbd1, hbdm⟩ := hb
  simp only at *
  have h' : ¬(y2 < y1 ∨ (y2 = y1 ∧ (m2 < m1 ∨ (m2 = m1 ∧ d2 < d1)))) := by
    simpa [dtLtB] using h
  unfold daysInMonth at hadm hbdm
  unfold toOrd daysBeforeMonth
  simp only
  rcases Nat.lt_trichotomy y1 y2 with hy | hy | hy
  · have e1 : daysBeforeMonthL (isLeap y1) m1 + d1 ≤
        (if isLeap y1 then 366 else 365) := by
      have := dbmL_dim_le_year (l := isLeap y1) ham1 ham12
      omega
    have e2 := dby_succ hay
    have e3 := dby_mono (show y1 + 1 ≤ y2 by omega)
    omega
  · subst hy
    have hm : m1 < m2 ∨ (m1 = m2 ∧ d1 ≤ d2) := by omega
    rcases hm with hmlt | ⟨rfl, hdle⟩
    · have e1 := dbmL_add_dim_le (l := isLeap y1) ham1 hmlt hbm12
      omega
    · omega
  · omega

theorem dtLtB_irrefl (a : DateD) : dtLtB a a = false := by
  simp [dtLtB]

/-- C3: with both dates parsing and end not before start, the duration
is the inclusive ordinal difference plus one (so a same-day pair yields
1); with a parse failure on either side or end before start, the
duration is absent; and every returned duration is at least 1, never
zero or negative. -/
theorem days_between_inclusive_spec :
    (∀ (s e : Str) (ds de : DateD),
      parse_iso_date (vstr s) = some ds →
      parse_iso_date (vstr e) = some de →
      dtLtB de ds = false →
      days_between s e = some ((toOrd de : Int) - (toOrd ds : Int) + 1)) ∧
    (∀ (s e : Str) (ds de : DateD),
      parse_iso_date (vstr s) = some ds →
      parse_iso_date (vstr e) = some de →
      dtLtB de ds = true → days_between s e = Option.none) ∧
    (∀ s e : Str,
      parse_iso_date (vstr s) = Option.none ∨
        parse_iso_date (vstr e) = Option.none →
      days_between s e = Option.none) ∧
    (∀ (s : Str) (ds : DateD), parse_iso_date (vstr s) = some ds →
      days_between s s = some 1) ∧
    (∀ (s e : Str) (v : Int), days_between s e = some v → 1 ≤ v) := by
  have hsome : ∀ (s e : Str) (ds de : DateD),
      parse_iso_date (vstr s) = some ds →
      parse_iso_date (vstr e) = some de →
      dtLtB de ds = false →
      days_between s e = some ((toOrd de : Int) - (toOrd ds : Int) + 1) := by
    intro s e ds de hs he hlt
    have hmono := toOrd_mono (parse_iso_date_valid hs)
      (parse_iso_date_valid he) hlt
    unfold days_between
    rw [hs, he]
    simp only
    rw [if_neg (by simp [hlt]), if_pos (by omega)]
  refine ⟨hsome, ?_, ?_, ?_, ?_⟩
  · intro s e ds de hs he hlt
    unfold days_between
    rw [hs, he]
    simp only
    rw [if_pos hlt]
  · intro s e hor
    unfold days_between
    rcases hor with hn | hn
    · rw [hn]
    · rw [hn]
      cases parse_iso_date (vstr s) <;> rfl
  · intro s ds hs
    have := hsome s s ds ds hs hs (dtLtB_irrefl ds)
    rw [this]
    norm_num
  · intro s e v h
    exact days_between_pos h

/-- Witness for C3: the theorem applied at the spec's example pairs
("2026-03-01" to "2026-03-05" gives 5; the same day gives 1; reversed
dates give none), with the evaluated results. -/
theorem days_between_inclusive_witness :
    days_between "2026-03-01".data "2026-03-05".data =
      some ((toOrd ⟨2026, 3, 5⟩ : Int) - (toOrd ⟨2026, 3, 1⟩ : Int) + 1) ∧
    days_between "2026-03-01".data "2026-03-05".data = some 5 ∧
    days_between "2026-03-01".data "2026-03-01".data = some 1 ∧
    days_between "2026-03-05".data "2026-03-01".data = Option.none ∧
    days_between "2026-03-01 onwards".data "nonsense".data = Option.none :=
  ⟨days_between_inclusive_spec.1 "2026-03-01".data "2026-03-05".data
      ⟨2026, 3, 1⟩ ⟨2026, 3, 5⟩ rfl rfl (by decide),
   rfl,
   days_between_inclusive_spec.2.2.2.1 "2026-03-01".data ⟨2026, 3, 1⟩ rfl,
   days_between_inclusive_spec.2.1 "2026-03-05".data "2026-03-01".data
      ⟨2026, 3, 5⟩ ⟨2026, 3, 1⟩ rfl rfl (by decide),
   days_between_inclusive_spec.2.2.1 "2026-03-01 onwards".data
      "nonsense".data (Or.inr rfl)⟩

/-! ### The field-completion loop (C2) -/

theorem parseMonth_len {r : Str} {m : Nat} {rest : Str}
    (h : parseMonth r = some (m, rest)) : r.length ≤ rest.length + 2 := by
  unfold parseMonth at h
  split at h
  · split at h
    · cases h; simp
    · split at h
      · cases h; simp
      · split at h
        · cases h; simp
        · cases h
  · split at h
    · cases h; simp
    · cases h
  · cases h

theorem parseDay_len {r : Str} {d : Nat} {rest : Str}
    (h : parseDay r = some (d, rest)) : r.length ≤ rest.length + 2 := by
  unfold parseDay at h
  split at h
  · split at h
    · cases h; simp
    · split at h
      · cases h; simp
      · split at h
        · cases h; simp
        · split at h
          · cases h; simp
          · cases h
  · split at h
    · cases h; simp
    · cases h
  · cases h

theorem strptimeYmd_len {s : Str} {a : DateD}
    (h : strptimeYmd s = some a) : s.length ≤ 10 := by
  unfold strptimeYmd at h
  split at h
  · split at h
    · split at h
      · split at h
        · split at h
          · rename_i x1 m rest2 hpm x2 dd hpd hcond
            have h1 := parseMonth_len hpm
            have h2 := parseDay_len hpd
            simp at h1 h2 ⊢
            omega
          · cases h
        · cases h
      · cases h
    · cases h
  · cases h

theorem validate_iso_take10 {v : Str} (hfix : pyStrip v = v)
    (hval : validate_iso_date v = true) : v.take 10 = v := by
  unfold validate_iso_date at hval
  rw [hfix] at hval
  cases hs : strptimeYmd v with
  | none => rw [hs] at hval; cases hval
  | some a => exact List.take_of_length_le (strptimeYmd_len hs)

theorem to_int_people_vstr_shape {s : Str} {pv : PyVal}
    (h : to_int_people (vstr s) = some pv) :
    ∃ p : Nat, 0 < p ∧ pv = vint (p : Int) := by
  have h' : (match firstDigitRun (pyStrip s) with
    | Option.none => Option.none
    | some run =>
      if 0 < digitsToNat run then some (vint ((digitsToNat run : Nat) : Int))
      else Option.none) = some pv := by
    show (match firstDigitRun (pyStrip (pyStr (vstr s))) with
      | Option.none => Option.none
      | some run =>
        if 0 < digitsToNat run then some (vint ((digitsToNat run : Nat) : Int))
        else Option.none) = some pv
    exact h
  cases hr : firstDigitRun (pyStrip s) with
  | none => rw [hr] at h'; cases h'
  | some run =>
    rw [hr] at h'
    simp only at h'
    by_cases hp : 0 < digitsToNat run
    · rw [if_pos hp] at h'
      cases h'
      exact ⟨digitsToNat run, hp, rfl⟩
    · rw [if_neg hp] at h'
      cases h'

theorem intStr_coe_nat (p : Nat) : intStr (p : Int) = natStr p := by
  unfold intStr
  rw [if_neg (by omega)]
  simp

theorem filter_missing_nil {fs : NF}
    (h : ∀ f ∈ REQUIRED_FIELDS, is_missing_value (nfGet fs f) = false) :
    REQUIRED_FIELDS.filter (fun n => is_missing_value (nfGet fs n)) = [] := by
  rw [List.filter_eq_nil_iff]
  intro f hf
  rw [h f hf]
  exact fun hc => by cases hc

theorem collectGo_sound :
    ∀ (fuel : Nat) (fs : NF) (ins : List Str) (fs' : NF) (ins' : List Str),
      collectGo fuel fs ins = some (fs', ins') →
      ∀ f ∈ REQUIRED_FIELDS, is_missing_value (nfGet fs' f) = false := by
  intro fuel
  induction fuel with
  | zero => intro fs ins fs' ins' h; cases h
  | succ n ih =>
    intro fs ins fs' ins' h f hf
    rw [collectGo] at h
    split at h
    · rename_i hemp
      cases h
      have hnil : REQUIRED_FIELDS.filter
          (fun n => is_missing_value (nfGet fs n)) = [] := by
        simpa [List.isEmpty_iff] using hemp
      have hmem := List.filter_eq_nil_iff.mp hnil f hf
      cases hm : is_missing_value (nfGet fs f)
      · rfl
      · exact absurd (by simp [hm]) hmem
    · split at h
      · rename_i g gi hp
        exact ih g gi fs' ins' h f hf
      · cases h

/-- The concrete mapping with a non-date `start_date` used to refute C2:
every required field is non-missing, so the loop returns at once without
validating the pre-filled value. -/
def cexFields : NF :=
  { origin := "Delhi".data
    destination := "Goa".data
    start_date := "garbage".data
    end_date := "2026-03-05".data
    start_or_dates := []
    days := []
    num_people := "2".data
    budget := "100 USD".data
    style := "budget".data
    interests := "food".data }

/-- Counterexample for C2: with `start_date` holding the non-missing but
invalid value "garbage", the loop terminates immediately with zero
prompts (the inputs are untouched), even though the field is not a valid
date — the loop's own check is the missing-value predicate only. -/
theorem collect_missing_fields_invalid_date_cex :
    collect_missing_fields cexFields ["2026-01-01".data] =
      some (cexFields, ["2026-01-01".data]) ∧
    validate_iso_date cexFields.start_date = false ∧
    is_missing_value cexFields.start_date = false := by
  refine ⟨rfl, ?_, rfl⟩
  decide

/-- C2 (amended): the loop terminates exactly when every required field
is non-missing per the missing-value predicate — pre-existing non-missing
values are not re-validated; values entered through the prompts are
validated per field before being stored (num_people parses to a positive
integer, dates pass the ISO validator, budget contains a digit); with
all required fields already non-missing the loop performs zero prompts
and leaves the mapping and the input stream unchanged. -/
theorem collect_missing_fields_spec :
    (∀ (fs : NF) (ins : List Str),
      (∀ f ∈ REQUIRED_FIELDS, is_missing_value (nfGet fs f) = false) →
      collect_missing_fields fs ins = some (fs, ins)) ∧
    (∀ (fs : NF) (ins : List Str) (fs' : NF) (ins' : List Str),
      collect_missing_fields fs ins = some (fs', ins') →
      ∀ f ∈ REQUIRED_FIELDS, is_missing_value (nfGet fs' f) = false) ∧
    (∀ (ins : List Str) (v : Str) (ins' : List Str),
      solicitField "start_date".data ins = some (v, ins') →
      validate_iso_date v = true) ∧
    (∀ (ins : List Str) (v : Str) (ins' : List Str),
      solicitField "num_people".data ins = some (v, ins') →
      ∃ p : Nat, 0 < p ∧ v = natStr p) ∧
    (∀ (ins : List Str) (v : Str) (ins' : List Str),
      solicitField "budget".data ins = some (v, ins') →
      validate_budget_format v = true) := by
  refine ⟨?_, ?_, ?_, ?_, ?_⟩
  · intro fs ins h
    unfold collect_missing_fields
    rw [collectGo, if_pos (by rw [filter_missing_nil h]; rfl)]
  · intro fs ins fs' ins' h
    exact collectGo_sound _ fs ins fs' ins' h
  · intro ins
    induction ins with
    | nil => intro v ins' h; cases h
    | cons raw rest ih =>
      intro v ins' h
      rw [solicitField] at h
      rw [if_neg (by decide), if_pos (by decide)] at h
      split at h
      · exact ih v ins' h
      · split at h
        · exact ih v ins' h
        · rename_i hmiss hval
          cases h
          have hval' : validate_iso_date (pyStrip raw) = true := by
            cases hb : validate_iso_date (pyStrip raw)
            · rw [hb] at hval; exact absurd rfl hval
            · rfl
          rw [validate_iso_take10 (pyStrip_idem raw) hval']
          exact hval'
  · intro ins
    induction ins with
    | nil => intro v ins' h; cases h
    | cons raw rest ih =>
      intro v ins' h
      rw [solicitField] at h
      rw [if_pos (by decide)] at h
      split at h
      · rename_i pv hpv
        cases h
        obtain ⟨p, hp, rfl⟩ := to_int_people_vstr_shape hpv
        refine ⟨p, hp, ?_⟩
        show intStr (p : Int) = natStr p
        exact intStr_coe_nat p
      · exact ih v ins' h
  · intro ins
    induction ins with
    | nil => intro v ins' h; cases h
    | cons raw rest ih =>
      intro v ins' h
      rw [solicitField] at h
      rw [if_neg (by decide), if_neg (by decide), if_pos (by decide)] at h
      split at h
      · exact ih v ins' h
      · split at h
        · exact ih v ins' h
        · rename_i hmiss hval
          cases h
          cases hb : validate_budget_format (pyStrip raw)
          · rw [hb] at hval; exact absurd rfl hval
          · rfl

/-- The fully valid concrete mapping used to witness C2. -/
def okFields : NF :=
  { origin := "Delhi".data
    destination := "Goa".data
    start_date := "2026-03-01".data
    end_date := "2026-03-05".data
    start_or_dates := []
    days := []
    num_people := "2".data
    budget := "20000 INR".data
    style := "budget".data
    interests := "food".data }

/-- Witness for C2 (amended): the theorem applied at a complete field
set (zero prompts, inputs untouched) and at concrete prompt streams for
the validated fields. -/
theorem collect_missing_fields_spec_witness :
    collect_missing_fields okFields ["spare".data] =
      some (okFields, ["spare".data]) ∧
    validate_iso_date "2026-03-01".data = true ∧
    (∃ p : Nat, 0 < p ∧ "4".data = natStr p) ∧
    validate_budget_format "500 EUR".data = true :=
  ⟨collect_missing_fields_spec.1 okFields ["spare".data] (by decide),
   collect_missing_fields_spec.2.2.1 ["bad date".data, "2026-03-01".data]
     "2026-03-01".data [] rfl,
   collect_missing_fields_spec.2.2.2.1 [" 4 ".data] "4".data [] rfl,
   collect_missing_fields_spec.2.2.2.2 ["500 EUR".data] "500 EUR".data [] rfl⟩

/-! ### Date-order behaviour of the pipeline (C7) -/

theorem deriveDays_start (fs : NF) : (deriveDays fs).start_date = fs.start_date := by
  unfold deriveDays
  split <;> rfl

theorem deriveDays_end (fs : NF) : (deriveDays fs).end_date = fs.end_date := by
  unfold deriveDays
  split <;> rfl

theorem ensureDates_start (fs : NF) :
    (ensureDates fs).start_date = fs.start_date := by
  unfold ensureDates
  split <;> rfl

theorem ensureDates_end (fs : NF) : (ensureDates fs).end_date = fs.end_date := by
  unfold ensureDates
  split <;> rfl

theorem ensureDates_days (fs : NF) : (ensureDates fs).days = fs.days := by
  unfold ensureDates
  split <;> rfl

/-- A mapping extracted with syntactically valid but misordered dates:
every required field is present, so the completion loop asks nothing. -/
def swappedDatesExtract : PyPairs :=
  .cons "origin".data (vstr "Delhi".data)
    (.cons "destination".data (vstr "Goa".data)
      (.cons "start_date".data (vstr "2026-03-05".data)
        (.cons "end_date".data (vstr "2026-03-01".data)
          (.cons "num_people".data (vint 2)
            (.cons "budget".data (vstr "20000 INR".data)
              (.cons "style".data (vstr "budget".data)
                (.cons "interests".data (vstr "food".data) .nil)))))))

/-- The concrete pipeline output for `swappedDatesExtract`. -/
def swappedRun : RunFields :=
  { base :=
      { origin := "Delhi".data
        destination := "Goa".data
        start_date := "2026-03-05".data
        end_date := "2026-03-01".data
        start_or_dates := "2026-03-05 to 2026-03-01".data
        days := []
        num_people := "2".data
        budget := "20000 INR".data
        style := "budget".data
        interests := "food".data }
    nights := []
    currency := "INR".data }

/-- Counterexample for C7: the pipeline (normalization, completion loop,
derivation) outputs a mapping in which both dates are present
(non-missing) yet `end_date` parses to a date strictly before
`start_date` — no stage enforces the claimed ordering invariant. -/
theorem pipeline_date_order_cex :
    (∃ F : RunFields, corePipeline swappedDatesExtract [] = some F ∧
      is_missing_value F.base.start_date = false ∧
      is_missing_value F.base.end_date = false ∧
      parse_iso_date (vstr F.base.start_date) = some ⟨2026, 3, 5⟩ ∧
      parse_iso_date (vstr F.base.end_date) = some ⟨2026, 3, 1⟩) ∧
    dtLtB ⟨2026, 3, 1⟩ ⟨2026, 3, 5⟩ = true := by
  constructor
  · exact ⟨swappedRun, rfl, rfl, rfl, rfl, rfl⟩
  · decide

/-- C7 (amended): the pipeline does not enforce `end_date >= start_date`;
both dates can remain present with the end before the start.  What does
hold in every produced mapping: whenever the two date fields parse with
the end date strictly before the start date, the derived `days` and
`nights` fields are empty — the pipeline never stores a negative
duration. -/
theorem pipeline_misordered_dates_spec :
    ∀ (m : PyPairs) (ins : List Str) (F : RunFields),
      corePipeline m ins = some F →
      ∀ ds de : DateD,
        parse_iso_date (vstr F.base.start_date) = some ds →
        parse_iso_date (vstr F.base.end_date) = some de →
        dtLtB de ds = true →
        F.base.days = [] ∧ F.nights = [] := by
  intro m ins F h ds de hs he hlt
  unfold corePipeline at h
  cases hc : collect_missing_fields (normalize_extracted_fields m) ins with
  | none => rw [hc] at h; cases h
  | some p =>
    rw [hc] at h
    have h' : some (derive_after_collect p.1) = some F := h
    obtain rfl : derive_after_collect p.1 = F := by injection h'
    have hsd : (derive_after_collect p.1).base.start_date = p.1.start_date := by
      show (ensureDates (deriveDays p.1)).start_date = _
      rw [ensureDates_start, deriveDays_start]
    have hed : (derive_after_collect p.1).base.end_date = p.1.end_date := by
      show (ensureDates (deriveDays p.1)).end_date = _
      rw [ensureDates_end, deriveDays_end]
    rw [hsd] at hs
    rw [hed] at he
    have hdb : days_between p.1.start_date p.1.end_date = Option.none := by
      unfold days_between
      rw [hs, he]
      simp only
      rw [if_pos hlt]
    have hdays : (deriveDays p.1).days = [] := by
      unfold deriveDays
      split
      · rw [hdb]
      · rfl
    constructor
    · show (ensureDates (deriveDays p.1)).days = []
      rw [ensureDates_days, hdays]
    · show nights_of_days (deriveDays p.1).days = []
      rw [hdays]
      rfl

/-- Witness for C7 (amended): the theorem applied at the concrete
misordered-dates pipeline run. -/
theorem pipeline_misordered_dates_witness :
    ∃ F : RunFields, corePipeline swappedDatesExtract [] = some F ∧
      F.base.days = [] ∧ F.nights = [] := by
  refine ⟨swappedRun, rfl, ?_⟩
  exact pipeline_misordered_dates_spec swappedDatesExtract [] swappedRun rfl
    ⟨2026, 3, 5⟩ ⟨2026, 3, 1⟩ rfl rfl (by decide)

/-! ### Idempotence of field normalization (C9) -/

theorem clean_text_value_trimFix (v : PyVal) : TrimFix (clean_text_value v) := by
  cases v with
  | vnone => exact trimFix_nil
  | vbool b => exact cleanStr_trimFix _
  | vint i => exact cleanStr_trimFix _
  | vfloat raw => exact cleanStr_trimFix _
  | vstr s => exact cleanStr_trimFix _
  | vlist xs => exact cleanStr_trimFix _
  | vdict es => exact cleanStr_trimFix _

theorem clean_text_value_not_sentinel {v : PyVal}
    (h : clean_text_value v ≠ []) :
    MISSING_SENTINELS.contains (lowerStr (clean_text_value v)) = false := by
  cases v with
  | vnone => exact absurd rfl h
  | vbool b => exact cleanStr_not_sentinel h
  | vint i => exact cleanStr_not_sentinel h
  | vfloat raw => exact cleanStr_not_sentinel h
  | vstr s => exact cleanStr_not_sentinel h
  | vlist xs => exact cleanStr_not_sentinel h
  | vdict es => exact cleanStr_not_sentinel h

theorem cleanStr_eq_self_of {s : Str} (ht : TrimFix s)
    (hns : MISSING_SENTINELS.contains (lowerStr s) = false) :
    cleanStr s = s := by
  rw [cleanStr_eq_ite, trimFix_strip ht, hns]
  simp

theorem not_sentinel_of_infix (sub : Str) {s : Str}
    (hin : containsSub s sub = true)
    (hall : ∀ w ∈ MISSING_SENTINELS, containsSub w sub = false) :
    MISSING_SENTINELS.contains s = false := by
  cases hc : MISSING_SENTINELS.contains s
  · rfl
  · exfalso
    have hmem : s ∈ MISSING_SENTINELS := by simpa using hc
    have hf := hall s hmem
    rw [hin] at hf
    cases hf

theorem lowerStr_append (a b : Str) :
    lowerStr (a ++ b) = lowerStr a ++ lowerStr b := List.map_append _ a b

/-- Joining two trimmed nonempty strings with " to " yields a string the
cleaner leaves unchanged (no sentinel contains " to "). -/
theorem to_join_cleanfix {s e : Str} (hs : TrimFix s) (he : TrimFix e)
    (hsne : s ≠ []) (hene : e ≠ []) :
    cleanStr (s ++ " to ".data ++ e) = s ++ " to ".data ++ e := by
  apply cleanStr_eq_self_of
  · exact trimFix_append3 _ hs he hsne hene
  · apply not_sentinel_of_infix " to ".data
    · apply containsSub_of_split (a := lowerStr s) (b := lowerStr e)
      rw [lowerStr_append, lowerStr_append]
      rfl
    · decide

theorem joinComma_one (s : Str) : joinComma [s] = s := rfl

theorem joinComma_cons2 (s r : Str) (rest : List Str) :
    joinComma (s :: r :: rest) = s ++ ", ".data ++ joinComma (r :: rest) := rfl

theorem joinComma_trimFix :
    ∀ L : List Str, (∀ s ∈ L, s ≠ [] ∧ TrimFix s) → L ≠ [] →
      joinComma L ≠ [] ∧ TrimFix (joinComma L) := by
  intro L
  induction L with
  | nil => intro _ h; exact absurd rfl h
  | cons s rest ih =>
    intro hall _
    obtain ⟨hsne, hst⟩ := hall s (List.mem_cons_self s rest)
    cases rest with
    | nil => rw [joinComma_one]; exact ⟨hsne, hst⟩
    | cons r rest2 =>
      obtain ⟨hjne, hjt⟩ :=
        ih (fun t ht => hall t (List.mem_cons_of_mem s ht)) (by simp)
      rw [joinComma_cons2]
      refine ⟨by simp, ?_⟩
      exact trimFix_append3 _ hst hjt hsne hjne

theorem joinComma_cleanfix (L : List Str)
    (hall : ∀ s ∈ L, s ≠ [] ∧ TrimFix s ∧
      MISSING_SENTINELS.contains (lowerStr s) = false) :
    cleanStr (joinComma L) = joinComma L := by
  cases L with
  | nil => exact cleanStr_nil
  | cons s rest =>
    obtain ⟨hsne, hst, hsns⟩ := hall s (List.mem_cons_self s rest)
    cases rest with
    | nil => rw [joinComma_one]; exact cleanStr_eq_self_of hst hsns
    | cons r rest2 =>
      obtain ⟨hjne, hjt⟩ := joinComma_trimFix (r :: rest2)
        (fun t ht => ⟨(hall t (List.mem_cons_of_mem s ht)).1,
          (hall t (List.mem_cons_of_mem s ht)).2.1⟩) (by simp)
      rw [joinComma_cons2]
      apply cleanStr_eq_self_of
      · exact trimFix_append3 _ hst hjt hsne hjne
      · apply not_sentinel_of_infix ", ".data
        · apply containsSub_of_split (a := lowerStr s)
            (b := lowerStr (joinComma (r :: rest2)))
          rw [lowerStr_append, lowerStr_append]
          rfl
        · decide

theorem cleanedItems_cons (v : PyVal) (rest : PyValList) :
    cleanedItems (.cons v rest) =
      (if (clean_text_value v).isEmpty = true then cleanedItems rest
       else clean_text_value v :: cleanedItems rest) := rfl

theorem cleanedItems_props :
    ∀ (items : PyValList), ∀ s ∈ cleanedItems items, s ≠ [] ∧ TrimFix s ∧
      MISSING_SENTINELS.contains (lowerStr s) = false
  | .nil => by intro s hs; cases hs
  | .cons v rest => by
    intro s hs
    rw [cleanedItems_cons] at hs
    by_cases hc : (clean_text_value v).isEmpty = true
    · rw [if_pos hc] at hs
      exact cleanedItems_props rest s hs
    · rw [if_neg hc] at hs
      rcases List.mem_cons.mp hs with rfl | hmem
      · have hne : clean_text_value v ≠ [] := by
          simpa [List.isEmpty_iff] using hc
        exact ⟨hne, clean_text_value_trimFix v,
          clean_text_value_not_sentinel hne⟩
      · exact cleanedItems_props rest s hmem
termination_by structural items => items

theorem normalize_interests_cleanfix (v : PyVal) :
    cleanStr (normalize_interests v) = normalize_interests v := by
  cases v with
  | vnone => exact cleanStr_nil
  | vbool b => exact cleanStr_clean (vbool b)
  | vint i => exact cleanStr_clean (vint i)
  | vfloat raw => exact cleanStr_clean (vfloat raw)
  | vstr s => exact cleanStr_clean (vstr s)
  | vlist items =>
    show cleanStr (joinComma (cleanedItems items)) = _
    exact joinComma_cleanfix _ (cleanedItems_props items)
  | vdict es => exact cleanStr_clean (vdict es)

theorem normalize_budget_vdict (kvs : PyPairs) :
    normalize_budget (vdict kvs) =
      (if (pyGetD kvs "amount".data vnone) matches vnone then
        clean_text_value (vdict kvs)
      else if pyTruthy (pyGetD kvs "currency".data vnone) then
        clean_text_value (vstr (pyStrip (pyStr (pyGetD kvs "amount".data vnone) ++
          " ".data ++ pyStr (pyGetD kvs "currency".data vnone))))
      else clean_text_value (pyGetD kvs "amount".data vnone)) := rfl

theorem normalize_budget_cleanfix (v : PyVal) :
    cleanStr (normalize_budget v) = normalize_budget v := by
  cases v with
  | vnone => exact cleanStr_nil
  | vbool b => exact cleanStr_clean (vbool b)
  | vint i => exact cleanStr_clean (vint i)
  | vfloat raw => exact cleanStr_clean (vfloat raw)
  | vstr s => exact cleanStr_clean (vstr s)
  | vlist xs => exact cleanStr_clean (vlist xs)
  | vdict kvs =>
    rw [normalize_budget_vdict]
    split
    · exact cleanStr_clean _
    · split
      · exact cleanStr_clean _
      · exact cleanStr_clean _

theorem cleanStr_optclean (v : PyVal) :
    cleanStr (if isVNone v = true then [] else clean_text_value v) =
      (if isVNone v = true then [] else clean_text_value v) := by
  split
  · exact cleanStr_nil
  · exact cleanStr_clean v

theorem optclean_trimFix (v : PyVal) :
    TrimFix (if isVNone v = true then [] else clean_text_value v) := by
  split
  · exact trimFix_nil
  · exact clean_text_value_trimFix v

theorem pyOr_vstr_vnone (s : Str) :
    pyOr (pyOr (vstr s) vnone) vnone =
      (if s.isEmpty = true then vnone else vstr s) := by
  by_cases hs : s.isEmpty = true
  · rw [if_pos hs]
    show pyOr (if (!s.isEmpty) = true then vstr s else vnone) vnone = vnone
    rw [hs]
    rfl
  · rw [if_neg hs]
    have hs' : s ≠ [] := by simpa [List.isEmpty_iff] using hs
    cases s with
    | nil => exact absurd rfl hs'
    | cons c cs => rfl

theorem nf_ext {a b : NF} (h1 : a.origin = b.origin)
    (h2 : a.destination = b.destination) (h3 : a.start_date = b.start_date)
    (h4 : a.end_date = b.end_date) (h5 : a.start_or_dates = b.start_or_dates)
    (h6 : a.days = b.days) (h7 : a.num_people = b.num_people)
    (h8 : a.budget = b.budget) (h9 : a.style = b.style)
    (h10 : a.interests = b.interests) : a = b := by
  cases a
  cases b
  simp only at h1 h2 h3 h4 h5 h6 h7 h8 h9 h10
  subst h1 h2 h3 h4 h5 h6 h7 h8 h9 h10
  rfl

theorem normalize_origin_fix (m : PyPairs) :
    cleanStr (normalize_extracted_fields m).origin =
      (normalize_extracted_fields m).origin :=
  cleanStr_clean (pyGetD m "origin".data (vstr []))

theorem normalize_destination_fix (m : PyPairs) :
    cleanStr (normalize_extracted_fields m).destination =
      (normalize_extracted_fields m).destination :=
  cleanStr_clean (pyGetD m "destination".data (vstr []))

theorem normalize_style_fix (m : PyPairs) :
    cleanStr (normalize_extracted_fields m).style =
      (normalize_extracted_fields m).style :=
  cleanStr_clean (pyGetD m "style".data (vstr []))

theorem normalize_start_fix (m : PyPairs) :
    cleanStr (normalize_extracted_fields m).start_date =
      (normalize_extracted_fields m).start_date :=
  cleanStr_optclean (pyGetN m "start_date".data)

theorem normalize_end_fix (m : PyPairs) :
    cleanStr (normalize_extracted_fields m).end_date =
      (normalize_extracted_fields m).end_date :=
  cleanStr_optclean (pyGetN m "end_date".data)

theorem normalize_start_trim (m : PyPairs) :
    TrimFix (normalize_extracted_fields m).start_date :=
  optclean_trimFix (pyGetN m "start_date".data)

theorem normalize_end_trim (m : PyPairs) :
    TrimFix (normalize_extracted_fields m).end_date :=
  optclean_trimFix (pyGetN m "end_date".data)

theorem normalize_budget_fix (m : PyPairs) :
    cleanStr (normalize_extracted_fields m).budget =
      (normalize_extracted_fields m).budget :=
  normalize_budget_cleanfix
    (if !pyTruthy (pyGetN m "budget".data) &&
        (!isVNone (pyGetN m "budget_amount".data) ||
          pyTruthy (pyGetN m "budget_currency".data)) then
      vdict (.cons "amount".data (pyGetN m "budget_amount".data)
        (.cons "currency".data (pyGetN m "budget_currency".data) .nil))
    else pyGetN m "budget".data)

theorem normalize_interests_fix (m : PyPairs) :
    cleanStr (normalize_extracted_fields m).interests =
      (normalize_extracted_fields m).interests :=
  normalize_interests_cleanfix (pyGetN m "interests".data)

theorem normalize_sod_eq (m : PyPairs) :
    (normalize_extracted_fields m).start_or_dates =
      (if !(normalize_extracted_fields m).start_date.isEmpty &&
          !(normalize_extracted_fields m).end_date.isEmpty &&
          (clean_text_value (pyOr (pyOr (pyGetN m "start_or_dates".data)
            (pyGetN m "travel_dates".data))
            (pyGetN m "dates".data))).isEmpty then
        (normalize_extracted_fields m).start_date ++ " to ".data ++
          (normalize_extracted_fields m).end_date
      else clean_text_value (pyOr (pyOr (pyGetN m "start_or_dates".data)
        (pyGetN m "travel_dates".data)) (pyGetN m "dates".data))) := rfl

theorem normalize_sod_fix (m : PyPairs) :
    cleanStr (normalize_extracted_fields m).start_or_dates =
      (normalize_extracted_fields m).start_or_dates := by
  rw [normalize_sod_eq]
  split
  · rename_i hcond
    rw [Bool.and_eq_true, Bool.and_eq_true] at hcond
    have hsne : (normalize_extracted_fields m).start_date ≠ [] := by
      intro h0
      rw [h0] at hcond
      exact absurd hcond.1.1 (by decide)
    have hene : (normalize_extracted_fields m).end_date ≠ [] := by
      intro h0
      rw [h0] at hcond
      exact absurd hcond.1.2 (by decide)
    exact to_join_cleanfix (normalize_start_trim m) (normalize_end_trim m)
      hsne hene
  · exact cleanStr_clean (pyOr (pyOr (pyGetN m "start_or_dates".data)
      (pyGetN m "travel_dates".data)) (pyGetN m "dates".data))

theorem normalize_sod_nil (m : PyPairs)
    (h : (normalize_extracted_fields m).start_or_dates = []) :
    (normalize_extracted_fields m).start_date = [] ∨
      (normalize_extracted_fields m).end_date = [] := by
  rw [normalize_sod_eq] at h
  split at h
  · exfalso
    rcases List.append_eq_nil.mp h with ⟨h1, -⟩
    rcases List.append_eq_nil.mp h1 with ⟨-, h4⟩
    exact (by decide : (" to ".data : Str) ≠ []) h4
  · rename_i hcond
    by_cases hs : (normalize_extracted_fields m).start_date = []
    · exact Or.inl hs
    by_cases he : (normalize_extracted_fields m).end_date = []
    · exact Or.inr he
    exfalso
    apply hcond
    rw [Bool.and_eq_true, Bool.and_eq_true]
    have hs' : (normalize_extracted_fields m).start_date.isEmpty = false := by
      cases hsd : (normalize_extracted_fields m).start_date
      · exact absurd hsd hs
      · rfl
    have he' : (normalize_extracted_fields m).end_date.isEmpty = false := by
      cases hed : (normalize_extracted_fields m).end_date
      · exact absurd hed he
      · rfl
    refine ⟨⟨by rw [hs']; rfl, by rw [he']; rfl⟩, by rw [h]; rfl⟩

theorem normalize_days_fallback_nil (m : PyPairs)
    (hb : ∀ b : Bool, to_int_days (pyGetN m "days".data) ≠ some (vbool b))
    (h : (normalize_extracted_fields m).days = []) :
    (if !(normalize_extracted_fields m).start_date.isEmpty &&
        !(normalize_extracted_fields m).end_date.isEmpty then
      match days_between (normalize_extracted_fields m).start_date
          (normalize_extracted_fields m).end_date with
      | some d => intStr d
      | Option.none => []
    else []) = [] := by
  rw [normalize_days_eq] at h
  revert h
  cases hd : to_int_days (pyGetN m "days".data) with
  | some pv =>
    intro h
    rcases to_int_days_shape hd with ⟨i, rfl⟩ | ⟨b, rfl⟩
    · exfalso
      have hp := to_int_days_pos hd
      have h' : intStr i = [] := h
      rw [intStr_of_pos hp] at h'
      exact natStr_ne_nil _ h'
    · exact absurd hd (hb b)
  | none => intro h; exact h

theorem clean_pyOr_nil :
    clean_text_value (pyOr (pyOr (vstr ([] : Str)) vnone) vnone) = [] := rfl

theorem clean_pyOr_cons (c : Char) (cs : Str) :
    clean_text_value (pyOr (pyOr (vstr (c :: cs)) vnone) vnone) =
      cleanStr (c :: cs) := rfl

theorem pyOr_vstr_left {s : Str} (h : s ≠ []) (b : PyVal) :
    pyOr (vstr s) b = vstr s := by
  cases s with
  | nil => exact absurd rfl h
  | cons c cs => rfl

/-- Counterexample for C9: normalizing a mapping whose `days` entry is the
Python boolean `True` stores the string "True"; on the second pass the
lenient parser finds no digit in "True", so `days` becomes empty and the
output differs from the first pass. -/
theorem normalize_idempotent_cex :
    normalize_extracted_fields (nfToDict (normalize_extracted_fields
        (.cons "days".data (vbool true) .nil))) ≠
      normalize_extracted_fields (.cons "days".data (vbool true) .nil) := by
  decide

set_option maxHeartbeats 1600000 in
/-- C9 (amended): re-running `_normalize_extracted_fields` on its own
output (viewed as the dict it returns) reproduces that output exactly,
PROVIDED the lenient int parser did not return a Python boolean for the
`days` or `num_people` entries of the original mapping (the boolean
`True` is stored as "True", which the second pass cannot re-parse).
Every other field survives unchanged: cleaned text is strip- and
sentinel-stable, the reconstructed budget re-cleans to itself, joined
interests and the "start to end" date span contain no sentinel, and a
positive numeric `days`/`num_people` string parses back to the same
integer. -/
theorem normalize_idempotent_spec (m : PyPairs)
    (hbd : ∀ b : Bool, to_int_days (pyGetN m "days".data) ≠ some (vbool b))
    (hbp : ∀ b : Bool, to_int_people (pyOr (pyGetN m "num_people".data)
      (pyGetN m "number_of_people".data)) ≠ some (vbool b)) :
    normalize_extracted_fields (nfToDict (normalize_extracted_fields m)) =
      normalize_extracted_fields m := by
  apply nf_ext
  · exact normalize_origin_fix m
  · exact normalize_destination_fix m
  · exact normalize_start_fix m
  · exact normalize_end_fix m
  · -- start_or_dates
    show (if !(cleanStr (normalize_extracted_fields m).start_date).isEmpty &&
          !(cleanStr (normalize_extracted_fields m).end_date).isEmpty &&
          (clean_text_value (pyOr (pyOr
            (vstr (normalize_extracted_fields m).start_or_dates) vnone)
            vnone)).isEmpty then
        cleanStr (normalize_extracted_fields m).start_date ++ " to ".data ++
          cleanStr (normalize_extracted_fields m).end_date
      else clean_text_value (pyOr (pyOr
        (vstr (normalize_extracted_fields m).start_or_dates) vnone) vnone)) =
      (normalize_extracted_fields m).start_or_dates
    rw [normalize_start_fix m, normalize_end_fix m]
    cases hsod : (normalize_extracted_fields m).start_or_dates with
    | nil =>
      rw [clean_pyOr_nil]
      rcases normalize_sod_nil m hsod with hs | he
      · rw [hs]; simp
      · rw [he]; simp
    | cons c cs =>
      have hfix := normalize_sod_fix m
      rw [hsod] at hfix
      rw [clean_pyOr_cons, hfix]
      simp
  · -- days
    show (match to_int_days (vstr (normalize_extracted_fields m).days) with
      | some pv => pyStr pv
      | Option.none =>
        if !(cleanStr (normalize_extracted_fields m).start_date).isEmpty &&
            !(cleanStr (normalize_extracted_fields m).end_date).isEmpty then
          match days_between (cleanStr (normalize_extracted_fields m).start_date)
              (cleanStr (normalize_extracted_fields m).end_date) with
          | some d => intStr d
          | Option.none => []
        else []) = (normalize_extracted_fields m).days
    rw [normalize_start_fix m, normalize_end_fix m]
    rcases normalize_days_shape m hbd with hnil | ⟨p, hp, hdays⟩
    · rw [hnil]
      exact normalize_days_fallback_nil m hbd hnil
    · rw [hdays, intStr_of_pos hp,
        to_int_days_natStr (show 0 < p.toNat by omega)]
      exact intStr_of_pos (i := (p.toNat : Int)) (by omega)
  · -- num_people
    show (match to_int_people (pyOr
        (vstr (normalize_extracted_fields m).num_people) vnone) with
      | some pv => pyStr pv
      | Option.none => []) = (normalize_extracted_fields m).num_people
    rcases normalize_people_shape m hbp with hnil | ⟨p, hp, hnp⟩
    · rw [hnil]; rfl
    · rw [hnp, intStr_of_pos hp,
        pyOr_vstr_left (natStr_ne_nil p.toNat) vnone, ← to_int_funs_eq,
        to_int_days_natStr (show 0 < p.toNat by omega)]
      exact intStr_of_pos (i := (p.toNat : Int)) (by omega)
  · -- budget
    show normalize_budget
        (if !pyTruthy (vstr (normalize_extracted_fields m).budget) && false then
          vdict (.cons "amount".data vnone (.cons "currency".data vnone .nil))
        else vstr (normalize_extracted_fields m).budget) =
      (normalize_extracted_fields m).budget
    rw [Bool.and_false]
    exact normalize_budget_fix m
  · exact normalize_style_fix m
  · exact normalize_interests_fix m

/-- A concrete extracted mapping whose `days` entry is a genuine int. -/
def idemDict : PyPairs :=
  .cons "origin".data (vstr "Paris".data)
    (.cons "destination".data (vstr "Rome".data)
      (.cons "days".data (vint 3) .nil))

theorem normalize_idempotent_witness :
    to_int_days (pyGetN idemDict "days".data) ≠ some (vbool true) ∧
    to_int_days (pyGetN idemDict "days".data) ≠ some (vbool false) ∧
    to_int_people (pyOr (pyGetN idemDict "num_people".data)
      (pyGetN idemDict "number_of_people".data)) ≠ some (vbool true) ∧
    to_int_people (pyOr (pyGetN idemDict "num_people".data)
      (pyGetN idemDict "number_of_people".data)) ≠ some (vbool false) ∧
    normalize_extracted_fields (nfToDict (normalize_extracted_fields
        idemDict)) = normalize_extracted_fields idemDict :=
  ⟨fun h => PyVal.noConfusion (Option.some.inj h),
   fun h => PyVal.noConfusion (Option.some.inj h),
   fun h => Option.noConfusion h,
   fun h => Option.noConfusion h,
   normalize_idempotent_spec idemDict
     (fun _ h => PyVal.noConfusion (Option.some.inj h))
     (fun _ h => Option.noConfusion h)⟩

/-! ### The JSON block extractor (C1) -/

theorem fcAux_none_cons (c : Char) (rest : Str) :
    fcAux Option.none (c :: rest) =
      (if c = '{' then fcAux (some []) rest else fcAux Option.none rest) := rfl

theorem fcAux_some_cons (acc : Str) (c : Char) (rest : Str) :
    fcAux (some acc) (c :: rest) =
      (if c = '}' then ('{' :: acc.reverse ++ ['}']) :: fcAux Option.none rest
       else fcAux (some (c :: acc)) rest) := rfl

theorem fcAux_none_skip {p : Str} (hp : ∀ c ∈ p, c ≠ '{') (s : Str) :
    fcAux Option.none (p ++ s) = fcAux Option.none s := by
  induction p with
  | nil => rfl
  | cons c p' ih =>
    rw [List.cons_append, fcAux_none_cons,
      if_neg (hp c (List.mem_cons_self c p'))]
    exact ih (fun t ht => hp t (List.mem_cons_of_mem c ht))

theorem fcAux_none_nil {p : Str} (hp : ∀ c ∈ p, c ≠ '{') :
    fcAux Option.none p = [] := by
  have h := fcAux_none_skip hp []
  rw [List.append_nil] at h
  exact h

theorem fcAux_close {i : Str} (hi : ∀ c ∈ i, c ≠ '}') :
    ∀ (acc rest : Str), fcAux (some acc) (i ++ '}' :: rest) =
      ('{' :: (acc.reverse ++ i) ++ ['}']) :: fcAux Option.none rest := by
  induction i with
  | nil =>
    intro acc rest
    rw [List.nil_append, fcAux_some_cons, if_pos rfl]
    simp
  | cons c i' ih =>
    intro acc rest
    rw [List.cons_append, fcAux_some_cons,
      if_neg (hi c (List.mem_cons_self c i')),
      ih (fun t ht => hi t (List.mem_cons_of_mem c ht)) (c :: acc) rest]
    simp

/-- `re.findall` on prose-block-prose-block-prose input yields exactly
the two brace-delimited candidates, in textual order. -/
theorem findCandidates_two (p0 i1 p1 i2 p2 : Str)
    (hp0 : ∀ c ∈ p0, c ≠ '{') (hi1 : ∀ c ∈ i1, c ≠ '}')
    (hp1 : ∀ c ∈ p1, c ≠ '{') (hi2 : ∀ c ∈ i2, c ≠ '}')
    (hp2 : ∀ c ∈ p2, c ≠ '{') :
    findCandidates
        (p0 ++ '{' :: (i1 ++ '}' :: (p1 ++ '{' :: (i2 ++ '}' :: p2)))) =
      ['{' :: i1 ++ ['}'], '{' :: i2 ++ ['}']] := by
  unfold findCandidates
  rw [fcAux_none_skip hp0, fcAux_none_cons, if_pos rfl, fcAux_close hi1,
    fcAux_none_skip hp1, fcAux_none_cons, if_pos rfl, fcAux_close hi2,
    fcAux_none_nil hp2]
  simp

theorem fencedOrWhole_none {s : Str} (h : fencedSearch s = Option.none) :
    fencedOrWhole s = s := by
  unfold fencedOrWhole
  rw [h]

/-- When no fence matches and the whole text fails to parse, the
extractor falls through to the reversed candidate scan. -/
theorem extract_json_block_unfenced {text : Str}
    (hfence : fencedSearch (pyStrip text) = Option.none)
    (hwhole : jsonLoads (pyStrip text) = Option.none) :
    extract_json_block text =
      extract_json_block.scanRevCands
        (findCandidates (pyStrip text)).reverse := by
  unfold extract_json_block
  rw [fencedOrWhole_none hfence, hwhole]

theorem scanRevCands_cons (c : Str) (rest : List Str) :
    extract_json_block.scanRevCands (c :: rest) =
      (match jsonLoads c with
       | some (vdict d) => d
       | _ => extract_json_block.scanRevCands rest) := rfl

theorem scanRevCands_all_fail :
    ∀ L : List Str, (∀ c ∈ L, ∀ d : PyPairs, jsonLoads c ≠ some (vdict d)) →
      extract_json_block.scanRevCands L = .nil := by
  intro L
  induction L with
  | nil => intro _; rfl
  | cons c rest ih =>
    intro h
    rw [scanRevCands_cons]
    cases hc : jsonLoads c with
    | none => exact ih (fun t ht => h t (List.mem_cons_of_mem c ht))
    | some v =>
      cases v with
      | vdict d => exact absurd hc (h c (List.mem_cons_self c rest) d)
      | vnone => exact ih (fun t ht => h t (List.mem_cons_of_mem c ht))
      | vbool b => exact ih (fun t ht => h t (List.mem_cons_of_mem c ht))
      | vint i => exact ih (fun t ht => h t (List.mem_cons_of_mem c ht))
      | vfloat raw => exact ih (fun t ht => h t (List.mem_cons_of_mem c ht))
      | vstr s => exact ih (fun t ht => h t (List.mem_cons_of_mem c ht))
      | vlist xs => exact ih (fun t ht => h t (List.mem_cons_of_mem c ht))

/-- C1: on input holding two brace-delimited blocks separated by
brace-free prose, where no fenced block matches and the whole string
does not parse: (first conjunct) the extractor returns the parsed
mapping of the LAST brace-delimited block whenever that block parses as
a JSON object -- regardless of whether the first block parses, the
final valid block wins; (second conjunct) when the last block does NOT
parse as an object, the scan advances past it and returns the earlier
block's mapping when that one parses; and (third conjunct) whenever no
brace-delimited candidate of the cleaned text parses as an object, the
extractor returns the empty mapping, so it is total and never raises. -/
theorem extract_json_block_last_valid_spec :
    (∀ (text p0 i1 p1 i2 p2 : Str) (d2 : PyPairs),
      pyStrip text =
          p0 ++ '{' :: (i1 ++ '}' :: (p1 ++ '{' :: (i2 ++ '}' :: p2))) →
      (∀ c ∈ p0, c ≠ '{') → (∀ c ∈ i1, c ≠ '}') → (∀ c ∈ p1, c ≠ '{') →
      (∀ c ∈ i2, c ≠ '}') → (∀ c ∈ p2, c ≠ '{') →
      fencedSearch (pyStrip text) = Option.none →
      jsonLoads (pyStrip text) = Option.none →
      jsonLoads ('{' :: i2 ++ ['}']) = some (vdict d2) →
      extract_json_block text = d2) ∧
    (∀ (text p0 i1 p1 i2 p2 : Str) (d1 : PyPairs),
      pyStrip text =
          p0 ++ '{' :: (i1 ++ '}' :: (p1 ++ '{' :: (i2 ++ '}' :: p2))) →
      (∀ c ∈ p0, c ≠ '{') → (∀ c ∈ i1, c ≠ '}') → (∀ c ∈ p1, c ≠ '{') →
      (∀ c ∈ i2, c ≠ '}') → (∀ c ∈ p2, c ≠ '{') →
      fencedSearch (pyStrip text) = Option.none →
      jsonLoads (pyStrip text) = Option.none →
      (∀ d : PyPairs, jsonLoads ('{' :: i2 ++ ['}']) ≠ some (vdict d)) →
      jsonLoads ('{' :: i1 ++ ['}']) = some (vdict d1) →
      extract_json_block text = d1) ∧
    (∀ text : Str, fencedSearch (pyStrip text) = Option.none →
      jsonLoads (pyStrip text) = Option.none →
      (∀ c ∈ findCandidates (pyStrip text), ∀ d : PyPairs,
        jsonLoads c ≠ some (vdict d)) →
      extract_json_block text = .nil) := by
  refine ⟨?_, ?_, ?_⟩
  · intro text p0 i1 p1 i2 p2 d2 hstrip hp0 hi1 hp1 hi2 hp2 hfence hwhole h2
    rw [extract_json_block_unfenced hfence hwhole, hstrip,
      findCandidates_two p0 i1 p1 i2 p2 hp0 hi1 hp1 hi2 hp2,
      show (['{' :: i1 ++ ['}'], '{' :: i2 ++ ['}']] : List Str).reverse =
        ['{' :: i2 ++ ['}'], '{' :: i1 ++ ['}']] by simp,
      scanRevCands_cons, h2]
  · intro text p0 i1 p1 i2 p2 d1 hstrip hp0 hi1 hp1 hi2 hp2 hfence hwhole
      h2fail h1
    rw [extract_json_block_unfenced hfence hwhole, hstrip,
      findCandidates_two p0 i1 p1 i2 p2 hp0 hi1 hp1 hi2 hp2,
      show (['{' :: i1 ++ ['}'], '{' :: i2 ++ ['}']] : List Str).reverse =
        ['{' :: i2 ++ ['}'], '{' :: i1 ++ ['}']] by simp,
      scanRevCands_cons]
    cases hc : jsonLoads ('{' :: i2 ++ ['}']) with
    | none => rw [scanRevCands_cons, h1]
    | some v =>
      cases v with
      | vdict d => exact absurd hc (h2fail d)
      | vnone => rw [scanRevCands_cons, h1]
      | vbool b => rw [scanRevCands_cons, h1]
      | vint i => rw [scanRevCands_cons, h1]
      | vfloat raw => rw [scanRevCands_cons, h1]
      | vstr s => rw [scanRevCands_cons, h1]
      | vlist xs => rw [scanRevCands_cons, h1]
  · intro text hfence hwhole hall
    rw [extract_json_block_unfenced hfence hwhole]
    exact scanRevCands_all_fail _
      (fun c hc => hall c (List.mem_reverse.mp hc))

/-- A response with two JSON objects separated by prose; both parse,
with different keys, so only last-wins semantics yields the `b` dict. -/
def twoBlockText : Str :=
  "noise ".data ++
    '{' :: ("\x22a\x22: 1".data ++
      '}' :: (" mid ".data ++
        '{' :: ("\x22b\x22: 2".data ++ '}' :: " end".data)))

/-- A response whose final brace block is not valid JSON while the
earlier one is, exercising the advance-on-failure path. -/
def badLastText : Str :=
  "see ".data ++
    '{' :: ("\x22a\x22: 1".data ++
      '}' :: (" then ".data ++
        '{' :: ("oops".data ++ '}' :: " end".data)))

theorem extract_json_block_last_valid_witness :
    pyStrip twoBlockText =
        "noise ".data ++
          '{' :: ("\x22a\x22: 1".data ++
            '}' :: (" mid ".data ++
              '{' :: ("\x22b\x22: 2".data ++ '}' :: " end".data))) ∧
    fencedSearch (pyStrip twoBlockText) = Option.none ∧
    jsonLoads (pyStrip twoBlockText) = Option.none ∧
    jsonLoads ('{' :: "\x22a\x22: 1".data ++ ['}']) =
      some (vdict (.cons "a".data (vint 1) .nil)) ∧
    jsonLoads ('{' :: "\x22b\x22: 2".data ++ ['}']) =
      some (vdict (.cons "b".data (vint 2) .nil)) ∧
    extract_json_block twoBlockText = .cons "b".data (vint 2) .nil ∧
    jsonLoads ('{' :: "oops".data ++ ['}']) = Option.none ∧
    extract_json_block badLastText = .cons "a".data (vint 1) .nil ∧
    jsonLoads ('{' :: "\x22a\x22: NaN".data ++ ['}']) =
      some (vdict (.cons "a".data (vfloat "nan".data) .nil)) ∧
    extract_json_block "no json here at all".data = .nil := by
  refine ⟨rfl, rfl, rfl, rfl, rfl, ?_, rfl, ?_, rfl, ?_⟩
  · exact extract_json_block_last_valid_spec.1 twoBlockText
      "noise ".data "\x22a\x22: 1".data " mid ".data "\x22b\x22: 2".data
      " end".data (.cons "b".data (vint 2) .nil) rfl (by decide) (by decide)
      (by decide) (by decide) (by decide) rfl rfl rfl
  · apply extract_json_block_last_valid_spec.2.1 badLastText
      "see ".data "\x22a\x22: 1".data " then ".data "oops".data " end".data
      (.cons "a".data (vint 1) .nil) rfl (by decide) (by decide)
      (by decide) (by decide) (by decide) rfl rfl ?_ rfl
    intro d h
    rw [show jsonLoads ('{' :: "oops".data ++ ['}']) = Option.none
      from rfl] at h
    cases h
  · apply extract_json_block_last_valid_spec.2.2 "no json here at all".data
      rfl rfl
    intro c hc d
    rw [show findCandidates (pyStrip "no json here at all".data) =
      ([] : List Str) from rfl] at hc
    cases hc

end TravelCore
